import Mathlib

/-! # KQOAuth request signing

A shallow embedding of the request-signing core of KQOAuth
(`src/kqoauthutils.cpp`, `src/kqoauthrequest.cpp`, `src/kqoauthmanager.cpp`)
together with the properties of the signing pipeline: parameter normalisation,
base-string construction, HMAC-SHA1, the preparation / signing steps of a
request, its validation and initialisation, what `executeRequest` submits, and
the ownership of the network manager.

Conventions of the embedding

* `QString` is a sequence of UTF-16 code units, `QByteArray` a sequence of
  octets; both are lists of natural numbers.
* Qt library routines used by the sources (`QUrl::toPercentEncoding`,
  `QString::toUtf8`, `qSort`, `QCryptographicHash`, `QByteArray::toBase64`,
  `QString::number`, `QUrl::toString`, `QUrl::setQueryItems`, `QMultiMap`) are
  not part of the repository; they are given executable definitions that follow
  their documented behaviour.
* The clock, the `qrand()` generator and the function-local `static int offset`
  of `oauthNonce` are threaded through explicitly as a `World`.
-/

namespace KQOAuth

set_option maxRecDepth 100000

/-! ## Strings and byte arrays -/

/-- A `QString`: the sequence of its UTF-16 code units. -/
abbrev QString := List Nat

/-- A `QByteArray`: the sequence of its octets. -/
abbrev QByteArray := List Nat

/-- A `QPair<QString, QString>` holding a parameter name and its value. -/
abbrev Param := QString × QString

/-- An ASCII C string literal as the sequence of its character codes. -/
def lit (s : String) : List Nat := s.toList.map Char.toNat

/-- Implicit `QString(const QByteArray &)` / `QString::fromAscii`: with no codec
installed every octet becomes the code unit of the same value (Latin-1). -/
def fromAscii (ba : QByteArray) : QString := ba

/-- `QString::toAscii` with no codec installed (Latin-1): code units above
`0xFF` are replaced by `'?'`. -/
def toAscii (s : QString) : QByteArray := s.map fun u => if 255 < u then 63 else u

/-- UTF-8 encoding of one Unicode scalar value. -/
def utf8Encode (v : Nat) : QByteArray :=
  if v < 128 then [v]
  else if v < 2048 then [192 + v / 64, 128 + v % 64]
  else if v < 65536 then [224 + v / 4096, 128 + v / 64 % 64, 128 + v % 64]
  else [240 + v / 262144 % 8, 128 + v / 4096 % 64, 128 + v / 64 % 64, 128 + v % 64]

/-- High (leading) surrogate code unit. -/
def isHighSurrogate (u : Nat) : Bool := decide (55296 ≤ u) && decide (u < 56320)

/-- Low (trailing) surrogate code unit. -/
def isLowSurrogate (u : Nat) : Bool := decide (56320 ≤ u) && decide (u < 57344)

/-- The scalar value encoded by a surrogate pair. -/
def surrogateToUcs4 (high low : Nat) : Nat := 65536 + (high - 55296) * 1024 + (low - 56320)

/-- Worker of `toUtf8`: `pending` holds a high surrogate that still waits for
its low surrogate.  A surrogate without its partner is emitted as `'?'`. -/
def toUtf8Aux : Option Nat → QString → QByteArray
  | none, [] => []
  | some _, [] => [63]
  | none, u :: rest =>
    if isHighSurrogate u then toUtf8Aux (some u) rest
    else if isLowSurrogate u then 63 :: toUtf8Aux none rest
    else utf8Encode u ++ toUtf8Aux none rest
  | some h, u :: rest =>
    if isLowSurrogate u then utf8Encode (surrogateToUcs4 h u) ++ toUtf8Aux none rest
    else if isHighSurrogate u then 63 :: toUtf8Aux (some u) rest
    else 63 :: (utf8Encode u ++ toUtf8Aux none rest)

/-- `QString::toUtf8`. -/
def toUtf8 (s : QString) : QByteArray := toUtf8Aux none s

/-- Worker of `number`: decimal digits of `n`, most significant first. -/
def numberAux : Nat → Nat → List Nat → List Nat
  | 0, _, acc => acc
  | fuel + 1, n, acc =>
    if n / 10 = 0 then (48 + n % 10) :: acc
    else numberAux fuel (n / 10) ((48 + n % 10) :: acc)

/-- `QString::number` for a non-negative integer: its decimal rendering. -/
def number (n : Nat) : QString := numberAux (n + 1) n []

/-- `QString::number(int)`: the decimal rendering, with a leading `-` (code
45) for a negative number. -/
def numberInt (z : Int) : QString := if z < 0 then 45 :: number z.natAbs else number z.toNat

/-- The value that an `int` result takes: arithmetic on `int` is done on 32
bits in two's complement, a result outside `-2147483648 .. 2147483647` wraps
around. -/
def wrapInt32 (z : Int) : Int := (z + 2147483648) % 4294967296 - 2147483648

/-- `QString::operator<`: code units are compared one by one, a proper prefix
is smaller (the comparison done by `ucstrcmp`). -/
def qstringLess : QString → QString → Bool
  | [], [] => false
  | [], _ :: _ => true
  | _ :: _, [] => false
  | a :: as, b :: bs =>
    if a < b then true else if b < a then false else qstringLess as bs

/-! ## Percent encoding (`QUrl::toPercentEncoding`) -/

/-- Octets left alone by `QUrl::toPercentEncoding` when called without
exclude / include sets: `A-Z a-z 0-9 - . _ ~`. -/
def isUnreserved (c : Nat) : Bool :=
  (decide (97 ≤ c) && decide (c ≤ 122)) || (decide (65 ≤ c) && decide (c ≤ 90))
    || (decide (48 ≤ c) && decide (c ≤ 57))
    || decide (c = 45) || decide (c = 46) || decide (c = 95) || decide (c = 126)

/-- Upper-case hexadecimal digit of a nibble. -/
def toHexHelper (n : Nat) : Nat := if n < 10 then 48 + n else 55 + n

/-- Encoding of a single octet. -/
def percentEncodeByte (c : Nat) : QByteArray :=
  if isUnreserved c then [c] else [37, toHexHelper (c / 16 % 16), toHexHelper (c % 16)]

/-- `QByteArray::toPercentEncoding()`. -/
def percentEncodeBytes (ba : QByteArray) : QByteArray := ba.flatMap percentEncodeByte

/-- `QUrl::toPercentEncoding(const QString &)`: the UTF-8 form of the input with
every octet outside the unreserved set written as `%XX`. -/
def toPercentEncoding (input : QString) : QByteArray := percentEncodeBytes (toUtf8 input)

/-! ## SHA-1 and Base64 (`QCryptographicHash`, `QByteArray::toBase64`) -/

/-- Left rotation of a 32-bit word. -/
def rotl (n x : Nat) : Nat := ((x <<< n) ||| (x >>> (32 - n))) % 4294967296

/-- Big-endian octets of a 32-bit word. -/
def be32 (w : Nat) : List Nat := [w / 16777216 % 256, w / 65536 % 256, w / 256 % 256, w % 256]

/-- Big-endian octets of a 64-bit length field. -/
def be64 (n : Nat) : List Nat := be32 (n / 4294967296 % 4294967296) ++ be32 (n % 4294967296)

/-- SHA-1 padding: a `0x80` octet, zero octets up to 56 mod 64, the bit length. -/
def sha1Pad (msg : QByteArray) : QByteArray :=
  msg ++ 128 :: (List.replicate ((119 - msg.length % 64) % 64) 0 ++ be64 (8 * msg.length))

/-- Groups octets four by four into big-endian 32-bit words. -/
def sha1Words : List Nat → List Nat
  | a :: b :: c :: d :: rest =>
    ((((a % 256) * 256 + b % 256) * 256 + c % 256) * 256 + d % 256) :: sha1Words rest
  | _ => []

/-- Extends the message schedule by `n` words; the list is kept newest first. -/
def sha1Schedule : Nat → List Nat → List Nat
  | 0, ws => ws
  | n + 1, ws =>
    sha1Schedule n
      (rotl 1 (ws.getD 2 0 ^^^ ws.getD 7 0 ^^^ ws.getD 13 0 ^^^ ws.getD 15 0) :: ws)

/-- The five chaining words of SHA-1. -/
structure Sha1State where
  a : Nat
  b : Nat
  c : Nat
  d : Nat
  e : Nat
deriving DecidableEq

/-- Round function selector. -/
def sha1F (t b c d : Nat) : Nat :=
  if t < 20 then (b &&& c) ||| ((4294967295 - b) &&& d)
  else if t < 40 then b ^^^ c ^^^ d
  else if t < 60 then (b &&& c) ||| (b &&& d) ||| (c &&& d)
  else b ^^^ c ^^^ d

/-- Round constant selector. -/
def sha1K (t : Nat) : Nat :=
  if t < 20 then 1518500249 else if t < 40 then 1859775393
  else if t < 60 then 2400959708 else 3395469782

/-- One of the eighty rounds. -/
def sha1Round (s : Sha1State) (t w : Nat) : Sha1State :=
  let temp := (rotl 5 s.a + sha1F t s.b s.c s.d + s.e + w + sha1K t) % 4294967296
  ⟨temp, s.a, rotl 30 s.b, s.c, s.d⟩

/-- Runs the rounds over the schedule, counting rounds from `t`. -/
def sha1Rounds : Nat → List Nat → Sha1State → Sha1State
  | _, [], s => s
  | t, w :: ws, s => sha1Rounds (t + 1) ws (sha1Round s t w)

/-- Compression of one 64-octet block. -/
def sha1Block (h : Sha1State) (block : List Nat) : Sha1State :=
  let ws := (sha1Schedule 64 (sha1Words block).reverse).reverse
  let s := sha1Rounds 0 ws h
  ⟨(h.a + s.a) % 4294967296, (h.b + s.b) % 4294967296, (h.c + s.c) % 4294967296,
   (h.d + s.d) % 4294967296, (h.e + s.e) % 4294967296⟩

/-- Compresses `n` consecutive blocks. -/
def sha1Blocks : Nat → List Nat → Sha1State → Sha1State
  | 0, _, h => h
  | n + 1, bytes, h => sha1Blocks n (bytes.drop 64) (sha1Block h (bytes.take 64))

/-- `QCryptographicHash::hash(data, QCryptographicHash::Sha1)`: the 20-octet
SHA-1 digest (FIPS 180). -/
def sha1 (msg : QByteArray) : QByteArray :=
  let p := sha1Pad msg
  let h := sha1Blocks (p.length / 64) p ⟨1732584193, 4023233417, 2562383102, 271733878, 3285377520⟩
  be32 h.a ++ be32 h.b ++ be32 h.c ++ be32 h.d ++ be32 h.e

/-- Character of the Base64 alphabet for a 6-bit value. -/
def base64Char (n : Nat) : Nat :=
  if n < 26 then 65 + n else if n < 52 then 71 + n else if n < 62 then n - 4
  else if n = 62 then 43 else 47

/-- `QByteArray::toBase64()`: standard alphabet, `=` padding. -/
def toBase64 : QByteArray → QByteArray
  | a :: b :: c :: rest =>
    let j := a * 65536 + b * 256 + c
    base64Char (j / 262144 % 64) :: base64Char (j / 4096 % 64) :: base64Char (j / 64 % 64)
      :: base64Char (j % 64) :: toBase64 rest
  | [a, b] =>
    let j := a * 65536 + b * 256
    [base64Char (j / 262144 % 64), base64Char (j / 4096 % 64), base64Char (j / 64 % 64), 61]
  | [a] =>
    let j := a * 65536
    [base64Char (j / 262144 % 64), base64Char (j / 4096 % 64), 61, 61]
  | [] => []

/-- `QByteArray::fill(ch, size)`: the array becomes `size` copies of `ch`. -/
def fill (ch size : Nat) : QByteArray := List.replicate size ch

/-- `QByteArray::replace(pos, len, after)`. -/
def replace (ba : QByteArray) (pos len : Nat) (after : QByteArray) : QByteArray :=
  ba.take pos ++ after ++ ba.drop (pos + len)

/-! ## `kqoauthutils.cpp` -/

/-- `normalizedParameterSort` (kqoauthutils.cpp:30). -/
def normalizedParameterSort (left right : Param) : Bool :=
  let keyLeft := left.1
  let valueLeft := left.2
  let keyRight := right.1
  let valueRight := right.2
  if keyLeft = keyRight then qstringLess valueLeft valueRight
  else qstringLess keyLeft keyRight

/-- One step of the loop `for (i = 0; i < 64; i++)` of `hmac_sha1`. -/
def hmacPadStep (p : QByteArray × QByteArray) (i : Nat) : QByteArray × QByteArray :=
  (p.1.set i (p.1.getD i 0 ^^^ 54), p.2.set i (p.2.getD i 0 ^^^ 92))

/-- `KQOAuthUtils::hmac_sha1` (kqoauthutils.cpp:44). -/
def hmac_sha1 (message key : QString) : QString :=
  let keyBytes := toAscii key
  let blockSize := 64
  let keyLength := keyBytes.length
  let keyBytes := if keyLength > blockSize then sha1 keyBytes else keyBytes
  let ipad := fill 0 blockSize
  let opad := fill 0 blockSize
  let ipad := replace ipad 0 keyBytes.length keyBytes
  let opad := replace opad 0 keyBytes.length keyBytes
  let pads := (List.range 64).foldl hmacPadStep (ipad, opad)
  let ipad := pads.1
  let opad := pads.2
  let workArray := ipad.take 64
  let workArray := workArray ++ toAscii message
  let sha1Inner := sha1 workArray
  let workArray := opad.take 64
  let workArray := workArray ++ sha1Inner
  let sha1Outer := sha1 workArray
  fromAscii (toBase64 sha1Outer)

/-- Library routine `qSort(begin, end, lessThan)`, which sorts the range in
ascending order of `lessThan`; given here as an insertion sort.  For the
comparator used by this program the sorted arrangement of a list is unique
(`sorted_perm_unique`), so every correct sorting routine returns this list. -/
def orderedInsert {α : Type} (lessThan : α → α → Bool) (x : α) : List α → List α
  | [] => [x]
  | y :: ys => if lessThan y x then y :: orderedInsert lessThan x ys else x :: y :: ys

/-- See `orderedInsert`. -/
def qSort {α : Type} (lessThan : α → α → Bool) : List α → List α
  | [] => []
  | x :: xs => orderedInsert lessThan x (qSort lessThan xs)

/-- `KQOAuthUtils::sortRequestParameters` (kqoauthutils.cpp:98); the list is
sorted in place, here the sorted list is returned. -/
def sortRequestParameters (parameters : List Param) : List Param :=
  qSort normalizedParameterSort parameters

/-- The `foreach` loop of `encodeParameters` with its `first` flag. -/
def encodeParametersLoop : List Param → QByteArray → Bool → QByteArray
  | [], resultList, _ => resultList
  | parameter :: rest, resultList, first =>
    let resultList := if !first then resultList ++ lit "&" else resultList
    encodeParametersLoop rest
      (resultList ++ (toPercentEncoding parameter.1 ++ lit "=" ++ toPercentEncoding parameter.2))
      false

/-- `KQOAuthUtils::encodeParameters` (kqoauthutils.cpp:106). -/
def encodeParameters (parameters : List Param) : QByteArray :=
  toPercentEncoding (fromAscii (encodeParametersLoop parameters [] true))

/-- The local `secret` of `oauthSignature`: the key handed to `hmac_sha1`. -/
def oauthSignatureSecret (oauthConsumerSecret accessTokenSecret : QString) : QString :=
  fromAscii (toPercentEncoding oauthConsumerSecret) ++ lit "&"
    ++ fromAscii (toPercentEncoding accessTokenSecret)

/-- `KQOAuthUtils::oauthSignature` (kqoauthutils.cpp:131). -/
def oauthSignature (requestBaseString : QByteArray)
    (oauthConsumerSecret accessTokenSecret : QString) : QString :=
  let secret := oauthSignatureSecret oauthConsumerSecret accessTokenSecret
  let signature := hmac_sha1 (fromAscii requestBaseString) secret
  fromAscii (toPercentEncoding signature)

/-! ## `kqoauthrequest.cpp` -/

/-- Modelled from the spec: `OAUTH_KEY_SIGNATURE_METHOD` of `kqoauthglobals.h`
(not among the sources), the protocol parameter name `oauth_signature_method`. -/
def OAUTH_KEY_SIGNATURE_METHOD : QString := lit "oauth_signature_method"

/-- Modelled from the spec: `OAUTH_KEY_CONSUMER_KEY` of `kqoauthglobals.h`
(not among the sources), the protocol parameter name `oauth_consumer_key`. -/
def OAUTH_KEY_CONSUMER_KEY : QString := lit "oauth_consumer_key"

/-- Modelled from the spec: `OAUTH_KEY_VERSION` of `kqoauthglobals.h`
(not among the sources), the protocol parameter name `oauth_version`. -/
def OAUTH_KEY_VERSION : QString := lit "oauth_version"

/-- Modelled from the spec: `OAUTH_KEY_TIMESTAMP` of `kqoauthglobals.h`
(not among the sources), the protocol parameter name `oauth_timestamp`. -/
def OAUTH_KEY_TIMESTAMP : QString := lit "oauth_timestamp"

/-- Modelled from the spec: `OAUTH_KEY_NONCE` of `kqoauthglobals.h`
(not among the sources), the protocol parameter name `oauth_nonce`. -/
def OAUTH_KEY_NONCE : QString := lit "oauth_nonce"

/-- Modelled from the spec: `OAUTH_KEY_TOKEN` of `kqoauthglobals.h`
(not among the sources), the protocol parameter name `oauth_token`. -/
def OAUTH_KEY_TOKEN : QString := lit "oauth_token"

/-- Modelled from the spec: `OAUTH_KEY_SIGNATURE` of `kqoauthglobals.h`
(not among the sources), the protocol parameter name `oauth_signature`. -/
def OAUTH_KEY_SIGNATURE : QString := lit "oauth_signature"

/-- Modelled from the spec: `OAUTH_KEY_VERIFIER` of `kqoauthglobals.h`
(not among the sources), the protocol parameter name `oauth_verifier`. -/
def OAUTH_KEY_VERIFIER : QString := lit "oauth_verifier"

/-- A parsed `QUrl`: its components and whether parsing found it valid. -/
structure QUrl where
  valid : Bool
  scheme : QString
  authority : QString
  path : QString
  hasQuery : Bool
  query : QString
  hasFragment : Bool
  fragment : QString
deriving DecidableEq

/-- `QUrl::isEmpty`: no component is set. -/
def QUrl.isEmpty (u : QUrl) : Bool :=
  u.scheme.isEmpty && u.authority.isEmpty && u.path.isEmpty && u.query.isEmpty
    && u.fragment.isEmpty

/-- `QUrl::isValid`: the URL parsed without error and is not empty (parsing
an empty URL reports the error "empty"). -/
def QUrl.isValid (u : QUrl) : Bool := u.valid && !u.isEmpty

/-- `QUrl::toString(options)` where the only option that may be set is
`QUrl::RemoveQuery`. -/
def QUrl.toString (u : QUrl) (removeQuery : Bool) : QString :=
  (if u.scheme.isEmpty then [] else u.scheme ++ lit ":")
    ++ (if u.authority.isEmpty then [] else lit "//" ++ u.authority)
    ++ u.path
    ++ (if !removeQuery && u.hasQuery then lit "?" ++ u.query else [])
    ++ (if u.hasFragment then lit "#" ++ u.fragment else [])

/-- `KQOAuthRequest::RequestHttpMethod`. -/
inductive RequestHttpMethod where
  | GET
  | POST
deriving DecidableEq

/-- The data members of `KQOAuthRequestPrivate` (the timer object apart). -/
structure KQOAuthRequestPrivate where
  oauthRequestEndpoint : QUrl
  oauthHttpMethod : RequestHttpMethod
  oauthHttpMethodString : QString
  oauthConsumerKey : QString
  oauthConsumerSecretKey : QString
  oauthToken : QString
  oauthTokenSecret : QString
  oauthVerifier : QString
  oauthTimestamp_ : QString
  oauthNonce_ : QString
  requestParameters : List Param
  additionalParameters : List Param
  contentType : QString
  postRawData : QByteArray
  timeout : Int
deriving DecidableEq

/-- What the signing code reads from outside the request object: the system
clock (`clock k` is the value of the `k`-th reading), the `qrand()` generator
(`rand k` is the `k`-th value it returns, an `int` from 0 to `RAND_MAX`) and
the function-local `static int offset` of `oauthNonce`. -/
structure World where
  clock : Nat → Nat
  clockReads : Nat
  rand : Nat → Nat
  randCalls : Nat
  offset : Int

/-- `KQOAuthRequestPrivate::oauthTimestamp` (kqoauthrequest.cpp:89). -/
def oauthTimestamp (w : World) : QString × World :=
  (number (w.clock w.clockReads), { w with clockReads := w.clockReads + 1 })

/-- `KQOAuthRequestPrivate::oauthNonce` (kqoauthrequest.cpp:97): the sum
`qrand() + offset` and the increment `++offset` are `int` arithmetic. -/
def oauthNonce (w : World) : QString × World :=
  let nonce := numberInt (wrapInt32 ((w.rand w.randCalls : Int) + w.offset))
  (nonce, { w with randCalls := w.randCalls + 1, offset := wrapInt32 (w.offset + 1) })

/-- `KQOAuthRequestPrivate::prepareRequest` (kqoauthrequest.cpp:46). -/
def prepareRequest (w : World) (d : KQOAuthRequestPrivate) : World × KQOAuthRequestPrivate :=
  if !d.requestParameters.isEmpty then (w, d)
  else
    let ps := d.requestParameters ++ [(OAUTH_KEY_SIGNATURE_METHOD, lit "HMAC-SHA1")]
    let ps := ps ++ [(OAUTH_KEY_CONSUMER_KEY, d.oauthConsumerKey)]
    let ps := ps ++ [(OAUTH_KEY_VERSION, lit "1.0")]
    let t := oauthTimestamp w
    let ps := ps ++ [(OAUTH_KEY_TIMESTAMP, t.1)]
    let n := oauthNonce t.2
    let ps := ps ++ [(OAUTH_KEY_NONCE, n.1)]
    let ps := ps ++ [(OAUTH_KEY_TOKEN, d.oauthToken)]
    (n.2, { d with requestParameters := ps })

/-- `KQOAuthRequestPrivate::requestBaseString` (kqoauthrequest.cpp:71). -/
def requestBaseString (d : KQOAuthRequestPrivate) : QByteArray :=
  let baseString : QByteArray := []
  let baseString := baseString ++ (toUtf8 d.oauthHttpMethodString ++ lit "&")
  let baseString :=
    baseString ++ (toPercentEncoding (d.oauthRequestEndpoint.toString true) ++ lit "&")
  let baseStringParameters : List Param := []
  let baseStringParameters := baseStringParameters ++ d.requestParameters
  let baseStringParameters := baseStringParameters ++ d.additionalParameters
  let baseStringParameters := sortRequestParameters baseStringParameters
  baseString ++ encodeParameters baseStringParameters

/-- `KQOAuthRequestPrivate::signRequest` (kqoauthrequest.cpp:62). -/
def signRequest (d : KQOAuthRequestPrivate) : KQOAuthRequestPrivate :=
  let baseString := requestBaseString d
  let signature := oauthSignature baseString d.oauthConsumerSecretKey d.oauthTokenSecret
  { d with requestParameters := d.requestParameters ++ [(OAUTH_KEY_SIGNATURE, signature)] }

/-- `KQOAuthRequestPrivate::validateRequest` (kqoauthrequest.cpp:104), which is
all that `KQOAuthRequest::isValid` calls. -/
def validateRequest (d : KQOAuthRequestPrivate) : Bool :=
  if d.oauthRequestEndpoint.isEmpty
      || d.oauthConsumerKey.isEmpty
      || d.oauthNonce_.isEmpty
      || d.oauthTimestamp_.isEmpty
      || d.oauthToken.isEmpty
      || d.oauthTokenSecret.isEmpty then
    false
  else true

/-- Body of the `foreach` loop of `KQOAuthRequest::requestParameters`: the
header entry of one protocol parameter. -/
def headerEntry (requestParam : Param) : QByteArray :=
  let param := requestParam.1
  let value := requestParam.2
  let value := if param ≠ OAUTH_KEY_SIGNATURE then fromAscii (toPercentEncoding value) else value
  toUtf8 (param ++ lit "=\"" ++ value ++ lit "\"")

/-- `KQOAuthRequest::requestParameters` (kqoauthrequest.cpp:239).  The result is
the returned list with the world and request state after the call.  When the
request is not valid, `Q_ASSERT(false)` ends the process in a build with
assertions (`none`), and is skipped in a build with `QT_NO_DEBUG`. -/
def requestParameters (qtNoDebug : Bool) (w : World) (d : KQOAuthRequestPrivate) :
    Option (List QByteArray × World × KQOAuthRequestPrivate) :=
  let prepared := prepareRequest w d
  if !validateRequest prepared.2 && !qtNoDebug then none
  else
    let signed := signRequest prepared.2
    some (signed.requestParameters.map headerEntry, prepared.1, signed)

/-- The URL made from the empty string, `QUrl("")`: no component, not valid. -/
def emptyUrl : QUrl :=
  { valid := false, scheme := [], authority := [], path := [], hasQuery := false, query := [],
    hasFragment := false, fragment := [] }

/-- `KQOAuthParameters`, a `QMultiMap<QString, QString>`, given by its items in
iteration order: keys ascending, the items of one key from the most recently
inserted to the least recently inserted. -/
abbrev KQOAuthParameters := List Param

/-- `QMultiMap::insert(key, value)`: the new item is placed before the first
item whose key is not smaller than `key`. -/
def multiMapInsert : KQOAuthParameters → QString → QString → KQOAuthParameters
  | [], key, value => [(key, value)]
  | item :: rest, key, value =>
    if qstringLess item.1 key then item :: multiMapInsert rest key value
    else (key, value) :: item :: rest

/-- `QMultiMap::keys()`: the key of every item, in iteration order. -/
def multiMapKeys (m : KQOAuthParameters) : List QString := m.map Prod.fst

/-- `QMultiMap::values()`: the value of every item, in iteration order. -/
def multiMapValues (m : KQOAuthParameters) : List QString := m.map Prod.snd

/-- `KQOAuthRequest::setVerifier` (kqoauthrequest.cpp:173). -/
def setVerifier (d : KQOAuthRequestPrivate) (verifier : QString) : KQOAuthRequestPrivate :=
  { d with oauthVerifier := verifier }

/-- `KQOAuthRequest::setHttpMethod` (kqoauthrequest.cpp:179). -/
def setHttpMethod (d : KQOAuthRequestPrivate) (httpMethod : RequestHttpMethod) :
    KQOAuthRequestPrivate :=
  let requestHttpMethodString : QString :=
    match httpMethod with
    | RequestHttpMethod.GET => lit "GET"
    | RequestHttpMethod.POST => lit "POST"
  { d with oauthHttpMethod := httpMethod, oauthHttpMethodString := requestHttpMethodString }

/-- `KQOAuthRequest::resetRequest` (kqoauthrequest.cpp:334). -/
def resetRequest (w : World) (d : KQOAuthRequestPrivate) : World × KQOAuthRequestPrivate :=
  let d := { d with oauthRequestEndpoint := emptyUrl }
  let d := { d with oauthHttpMethodString := [] }
  let d := { d with oauthVerifier := [] }
  let t := oauthTimestamp w
  let d := { d with oauthTimestamp_ := t.1 }
  let n := oauthNonce t.2
  let d := { d with oauthNonce_ := n.1 }
  let d := { d with requestParameters := [] }
  let d := { d with additionalParameters := [] }
  (n.2, { d with timeout := 0 })

/-- `KQOAuthRequest::clearRequest` (kqoauthrequest.cpp:324). -/
def clearRequest (w : World) (d : KQOAuthRequestPrivate) : World × KQOAuthRequestPrivate :=
  let d := { d with oauthConsumerKey := [] }
  let d := { d with oauthConsumerSecretKey := [] }
  let d := { d with oauthToken := [] }
  let d := { d with oauthTokenSecret := [] }
  resetRequest w d

/-- `KQOAuthRequest::initRequest` (kqoauthrequest.cpp:132). -/
def initRequest (w : World) (d : KQOAuthRequestPrivate) (requestEndpoint : QUrl) :
    World × KQOAuthRequestPrivate :=
  if !requestEndpoint.isValid then (w, d)
  else
    let cleared := clearRequest w d
    let d := { cleared.2 with oauthRequestEndpoint := requestEndpoint }
    let t := oauthTimestamp cleared.1
    let d := { d with oauthTimestamp_ := t.1 }
    let n := oauthNonce t.2
    let d := { d with oauthNonce_ := n.1 }
    let d := setHttpMethod d RequestHttpMethod.POST
    (n.2, { d with contentType := lit "application/x-www-form-urlencoded" })

/-- The `foreach` loop of `setAdditionalParameters`: the key at position `i`
is paired with `additionalValues.at(i)`. -/
def setAdditionalParametersLoop :
    List QString → List QString → Nat → List Param → List Param
  | [], _, _, additionalParameters => additionalParameters
  | key :: rest, additionalValues, i, additionalParameters =>
    let value := additionalValues.getD i []
    setAdditionalParametersLoop rest additionalValues (i + 1)
      (additionalParameters ++ [(key, value)])

/-- `KQOAuthRequest::setAdditionalParameters` (kqoauthrequest.cpp:203). -/
def setAdditionalParameters (d : KQOAuthRequestPrivate) (additionalParams : KQOAuthParameters) :
    KQOAuthRequestPrivate :=
  let additionalKeys := multiMapKeys additionalParams
  let additionalValues := multiMapValues additionalParams
  { d with additionalParameters :=
      setAdditionalParametersLoop additionalKeys additionalValues 0 d.additionalParameters }

/-- `KQOAuthRequest::additionalParameters` (kqoauthrequest.cpp:217): the stored
pairs are inserted one after the other into a fresh multi-map. -/
def additionalParameters (d : KQOAuthRequestPrivate) : KQOAuthParameters :=
  d.additionalParameters.foldl (fun additionalParams p => multiMapInsert additionalParams p.1 p.2)
    []

/-- The `for` loop of `requestBody` with its `first` flag. -/
def requestBodyLoop : List Param → QByteArray → Bool → QByteArray
  | [], postBodyContent, _ => postBodyContent
  | p :: rest, postBodyContent, first =>
    let postBodyContent := if !first then postBodyContent ++ lit "&" else postBodyContent
    let key := p.1
    let value := p.2
    requestBodyLoop rest
      (postBodyContent ++ (toPercentEncoding key ++ toUtf8 (lit "=") ++ toPercentEncoding value))
      false

/-- `KQOAuthRequest::requestBody` (kqoauthrequest.cpp:292). -/
def requestBody (d : KQOAuthRequestPrivate) : QByteArray :=
  requestBodyLoop d.additionalParameters [] true

/-! ## `kqoauthmanager.cpp` -/

/-- Characters that `QUrl::setQueryItems` leaves as they are besides the
unreserved ones: `! $ ' ( ) * + , ; : @ / ?`.  The delimiters `=` and `&` are
always written as `%3D` and `%26`. -/
def isQueryLiteral (c : Nat) : Bool :=
  isUnreserved c || [33, 36, 39, 40, 41, 42, 43, 44, 59, 58, 64, 47, 63].contains c

/-- Encoding of a key or value inside the query of a `QUrl`. -/
def queryItemEncode (s : QString) : QByteArray :=
  (toUtf8 s).flatMap fun c =>
    if isQueryLiteral c then [c] else [37, toHexHelper (c / 16 % 16), toHexHelper (c % 16)]

/-- The loop of `QUrl::setQueryItems`: items are written `key=value`, an `&`
before every item but the first. -/
def setQueryItemsLoop : List Param → Nat → QByteArray → QByteArray
  | [], _, queryTmp => queryTmp
  | item :: rest, i, queryTmp =>
    let queryTmp := if i ≠ 0 then queryTmp ++ lit "&" else queryTmp
    setQueryItemsLoop rest (i + 1)
      (queryTmp ++ queryItemEncode item.1 ++ lit "=" ++ queryItemEncode item.2)

/-- `QUrl::setQueryItems(query)`: the query of the URL is replaced by the given
items, kept in their encoded form. -/
def QUrl.setQueryItems (u : QUrl) (query : List Param) : QUrl :=
  { u with query := fromAscii (setQueryItemsLoop query 0 []), hasQuery := !query.isEmpty }

/-- The `for` loop of `createQueryParams`: position `i` of the keys is paired
with position `i` of the values. -/
def createQueryParamsLoop : Nat → Nat → List QString → List QString → List Param → List Param
  | 0, _, _, _, result => result
  | remaining + 1, i, requestKeys, requestValues, result =>
    createQueryParamsLoop remaining (i + 1) requestKeys requestValues
      (result ++ [(requestKeys.getD i [], requestValues.getD i [])])

/-- `KQOAuthManager::createQueryParams` (kqoauthmanager.cpp:30). -/
def createQueryParams (requestParams : KQOAuthParameters) : List Param :=
  let requestKeys := multiMapKeys requestParams
  let requestValues := multiMapValues requestParams
  createQueryParamsLoop requestKeys.length 0 requestKeys requestValues []

/-- `KQOAuthManager::KQOAuthError` (kqoauthmanager.h). -/
inductive KQOAuthError where
  | NoError
  | NetworkError
  | RequestEndpointError
  | RequestValidationError
  | RequestUnauthorized
  | RequestError
  | ManagerError
deriving DecidableEq

/-- The data members of `KQOAuthManager`; a `QNetworkAccessManager *` is null
(`none`) or the identity of a network manager object. -/
structure KQOAuthManager where
  error : KQOAuthError
  networkManager : Option Nat
  managerUserSet : Bool
deriving DecidableEq

/-- What `executeRequest` hands to `QNetworkAccessManager::get` or `::post`:
the verb, the URL of the network request, its raw `Authorization` header, its
content type header (set for `post` only) and the body (`post` only).  The
reply object that the network manager returns stands for this submission; the
user data attribute attached to the network request is left out. -/
structure NetworkCall where
  verb : RequestHttpMethod
  url : QUrl
  authorization : QByteArray
  contentTypeHeader : Option QString
  body : Option QByteArray
deriving DecidableEq

/-- State after `executeRequest` returns: the manager, the world, the request
behind the pointer argument (`none` for a null pointer) and the returned reply
(`none` for a null reply). -/
structure ExecuteResult where
  manager : KQOAuthManager
  world : World
  request : Option KQOAuthRequestPrivate
  reply : Option NetworkCall

/-- The `foreach` loop of `executeRequest` that assembles the `Authorization`
header. -/
def authHeaderLoop : List QByteArray → QByteArray → Bool → QByteArray
  | [], authHeader, _ => authHeader
  | header :: rest, authHeader, first =>
    let authHeader := if !first then authHeader ++ lit ", " else authHeader ++ lit "OAuth "
    authHeaderLoop rest (authHeader ++ header) false

/-- `KQOAuthManager::executeRequest` (kqoauthmanager.cpp:63).  The outer
`Option` is `none` when an assertion ends the process inside
`requestParameters`.  The manager is one that its constructor has set up, so
`networkManager` is not null where it is dereferenced. -/
def executeRequest (qtNoDebug : Bool) (m : KQOAuthManager) (w : World)
    (request : Option KQOAuthRequestPrivate) : Option ExecuteResult :=
  match request with
  | none => some ⟨{ m with error := KQOAuthError.RequestError }, w, none, none⟩
  | some d =>
    if !d.oauthRequestEndpoint.isValid then
      some ⟨{ m with error := KQOAuthError.RequestEndpointError }, w, some d, none⟩
    else if !validateRequest d then
      some ⟨{ m with error := KQOAuthError.RequestValidationError }, w, some d, none⟩
    else
      let networkRequestUrl := d.oauthRequestEndpoint
      match requestParameters qtNoDebug w d with
      | none => none
      | some (requestHeaders, w1, d1) =>
        let authHeader := authHeaderLoop requestHeaders [] true
        match d1.oauthHttpMethod with
        | RequestHttpMethod.GET =>
          let urlParams := createQueryParams (additionalParameters d1)
          let urlWithParams := networkRequestUrl.setQueryItems urlParams
          some ⟨m, w1, some d1,
            some { verb := RequestHttpMethod.GET, url := urlWithParams,
                   authorization := authHeader, contentTypeHeader := none, body := none }⟩
        | RequestHttpMethod.POST =>
          if d1.contentType = lit "application/x-www-form-urlencoded" then
            some ⟨m, w1, some d1,
              some { verb := RequestHttpMethod.POST, url := networkRequestUrl,
                     authorization := authHeader, contentTypeHeader := some d1.contentType,
                     body := some (requestBody d1) }⟩
          else
            some ⟨m, w1, some d1,
              some { verb := RequestHttpMethod.POST, url := networkRequestUrl,
                     authorization := authHeader, contentTypeHeader := some d1.contentType,
                     body := some d1.postRawData }⟩

/-- The `QNetworkAccessManager` objects of the process: `live` lists the
objects that exist, `nextId` is the identity that the next
`new QNetworkAccessManager` gets. -/
structure NetworkManagerHeap where
  nextId : Nat
  live : List Nat
deriving DecidableEq

/-- The expression `new QNetworkAccessManager`: the new object and the heap
holding it. -/
def newNetworkManager (h : NetworkManagerHeap) : Nat × NetworkManagerHeap :=
  (h.nextId, { nextId := h.nextId + 1, live := h.nextId :: h.live })

/-- The statement `delete p`: nothing happens for a null pointer, otherwise the
object ceases to exist. -/
def deleteNetworkManager (h : NetworkManagerHeap) (p : Option Nat) : NetworkManagerHeap :=
  match p with
  | none => h
  | some a => { h with live := h.live.erase a }

/-- `KQOAuthManager::setNetworkManager` (kqoauthmanager.cpp:134). -/
def setNetworkManager (h : NetworkManagerHeap) (m : KQOAuthManager) (manager : Option Nat) :
    NetworkManagerHeap × KQOAuthManager :=
  if manager = none then (h, m)
  else
    let h :=
      if !m.managerUserSet && m.networkManager.isSome then
        deleteNetworkManager h m.networkManager
      else h
    let m := { m with managerUserSet := true }
    (h, { m with networkManager := manager })

/-- `KQOAuthManager::KQOAuthManager` (kqoauthmanager.cpp:46): the member
initialisers, then `setNetworkManager(new QNetworkAccessManager)`. -/
def constructManager (h : NetworkManagerHeap) : NetworkManagerHeap × KQOAuthManager :=
  let m : KQOAuthManager :=
    { error := KQOAuthError.NoError, networkManager := none, managerUserSet := false }
  let created := newNetworkManager h
  setNetworkManager created.2 m (some created.1)

/-- `KQOAuthManager::~KQOAuthManager` (kqoauthmanager.cpp:55): the heap and the
members after the destructor body. -/
def destructManager (h : NetworkManagerHeap) (m : KQOAuthManager) :
    NetworkManagerHeap × KQOAuthManager :=
  if !m.managerUserSet then
    (deleteNetworkManager h m.networkManager, { m with networkManager := none })
  else (h, m)

/-! ## Wording of the specification, for comparison with the code -/

/-- The parameter block as the specification words it: every pair rendered as
`percentEncode(key) = percentEncode(value)`, the pairs joined with `&`. -/
def joinedParameters (parameters : List Param) : QByteArray :=
  (List.intersperse (lit "&")
    (parameters.map fun p => toPercentEncoding p.1 ++ lit "=" ++ toPercentEncoding p.2)).flatten

/-- The endpoint with its query string removed. -/
def QUrl.withoutQuery (u : QUrl) : QUrl := { u with hasQuery := false, query := [] }

/-- "Not after": `p` may stand before `q` in a list sorted by
`normalizedParameterSort`. -/
def paramLe (p q : Param) : Prop := normalizedParameterSort q p = false

/-- The strings returned by `n` consecutive calls of `oauthNonce`. -/
def oauthNonceCalls : Nat → World → List QString
  | 0, _ => []
  | n + 1, w => (oauthNonce w).1 :: oauthNonceCalls n (oauthNonce w).2

/-- An upper-case hexadecimal digit: `0-9` or `A-F`. -/
def isUpperHexDigit (c : Nat) : Bool :=
  (decide (48 ≤ c) && decide (c ≤ 57)) || (decide (65 ≤ c) && decide (c ≤ 70))

/-- The units a base string is made of: one unreserved character, one raw `&`
(code 38), or `%` (code 37) followed by two upper-case hexadecimal digits. -/
def isBaseStringToken : List Nat → Bool
  | [c] => isUnreserved c || decide (c = 38)
  | [p, a, b] => decide (p = 37) && isUpperHexDigit a && isUpperHexDigit b
  | _ => false

/-- HMAC as the specification words it (RFC 2104): the key is replaced by its
digest when longer than the block, padded with zeros to 64 octets and combined
with the pad constants; the result is `SHA1(opad ++ SHA1(ipad ++ message))`. -/
def hmacSha1Spec (message key : QByteArray) : QByteArray :=
  let k := if key.length ≤ 64 then key else sha1 key
  let kPadded := k ++ List.replicate (64 - k.length) 0
  let ipad := kPadded.map fun b => b ^^^ 54
  let opad := kPadded.map fun b => b ^^^ 92
  sha1 (opad ++ sha1 (ipad ++ message))

/-! ## Sample inputs -/

/-- A request as the specification's fixture describes it: `POST` to
`https://api.example.com/resource`, consumer key `ck`, consumer secret `cs`,
token `tok`, token secret `ts`, nonce `abc`, timestamp `1000000000`, no
protocol parameters yet and no additional parameters. -/
def sampleRequest : KQOAuthRequestPrivate where
  oauthRequestEndpoint :=
    { valid := true, scheme := lit "https", authority := lit "api.example.com",
      path := lit "/resource", hasQuery := false, query := [],
      hasFragment := false, fragment := [] }
  oauthHttpMethod := RequestHttpMethod.POST
  oauthHttpMethodString := lit "POST"
  oauthConsumerKey := lit "ck"
  oauthConsumerSecretKey := lit "cs"
  oauthToken := lit "tok"
  oauthTokenSecret := lit "ts"
  oauthVerifier := []
  oauthTimestamp_ := lit "1000000000"
  oauthNonce_ := lit "abc"
  requestParameters := []
  additionalParameters := []
  contentType := lit "application/x-www-form-urlencoded"
  postRawData := []
  timeout := 0

/-- A world whose clock always reads `1000000000`, whose `qrand()` always
returns `7`, and in which `oauthNonce` has not been called yet. -/
def sampleWorld : World where
  clock := fun _ => 1000000000
  clockReads := 0
  rand := fun _ => 7
  randCalls := 0
  offset := 0

/-- The fixture request without its token secret. -/
def sampleRequestNoTokenSecret : KQOAuthRequestPrivate :=
  { sampleRequest with oauthTokenSecret := [] }

/-- The fixture request after earlier use: it carries a raw body `x`, one
additional parameter, a protocol parameter and a timeout. -/
def sampleRequestUsed : KQOAuthRequestPrivate :=
  { sampleRequest with
    postRawData := lit "x", requestParameters := [(lit "oauth_version", lit "1.0")],
    additionalParameters := [(lit "q", lit "1")], oauthVerifier := lit "v", timeout := 5 }

/-- A manager as its constructor leaves it, holding the network manager `1`. -/
def sampleManager : KQOAuthManager :=
  { error := KQOAuthError.NoError, networkManager := some 1, managerUserSet := true }

/-- A world in which `qrand()` returns `5` and from then on `4`. -/
def collidingWorld : World where
  clock := fun _ => 1000000000
  clockReads := 0
  rand := fun k => if k = 0 then 5 else 4
  randCalls := 0
  offset := 0

/-- A world in which `qrand()` returns the largest `int`, 2147483647, and the
counter of `oauthNonce` stands at 1. -/
def overflowWorld : World where
  clock := fun _ => 1000000000
  clockReads := 0
  rand := fun _ => 2147483647
  randCalls := 0
  offset := 1

/-- The multi-map into which key `a` was inserted with value `2` and then with
value `1`. -/
def sampleDuplicateMap : KQOAuthParameters :=
  multiMapInsert (multiMapInsert [] (lit "a") (lit "2")) (lit "a") (lit "1")

/-- Value of a hexadecimal digit character. -/
def hexValue (c : Nat) : Nat :=
  if 48 ≤ c ∧ c ≤ 57 then c - 48 else if 97 ≤ c ∧ c ≤ 102 then c - 87 else c - 55

/-- Octets written as pairs of hexadecimal digits. -/
def fromHexAux : List Nat → QByteArray
  | a :: b :: rest => (16 * hexValue a + hexValue b) :: fromHexAux rest
  | _ => []

/-- The octet string denoted by a hexadecimal literal, as test vectors print
digests. -/
def fromHex (s : String) : QByteArray := fromHexAux (lit s)

/-! # Properties -/

/-! ## String literals used by the code -/

theorem lit_amp : lit "&" = [38] := rfl
theorem lit_eq : lit "=" = [61] := rfl

/-! ## The comparator is a strict total order -/

theorem qstringLess_irrefl (a : QString) : qstringLess a a = false := by
  induction a with
  | nil => rfl
  | cons x xs ih => simp [qstringLess, ih]

theorem qstringLess_trans : ∀ a b c : QString,
    qstringLess a b = true → qstringLess b c = true → qstringLess a c = true
  | [], [], _, h, _ => by simp [qstringLess] at h
  | [], _ :: _, [], _, h => by simp [qstringLess] at h
  | [], _ :: _, _ :: _, _, _ => by simp [qstringLess]
  | _ :: _, [], _, h, _ => by simp [qstringLess] at h
  | _ :: _, _ :: _, [], _, h => by simp [qstringLess] at h
  | x :: xs, y :: ys, z :: zs, h1, h2 => by
    simp only [qstringLess] at h1 h2 ⊢
    split_ifs at h1 h2 ⊢ <;> first
      | rfl
      | omega
      | exact qstringLess_trans xs ys zs h1 h2

theorem qstringLess_total : ∀ a b : QString,
    a ≠ b → qstringLess a b = true ∨ qstringLess b a = true
  | [], [], h => absurd rfl h
  | [], _ :: _, _ => by simp [qstringLess]
  | _ :: _, [], _ => by simp [qstringLess]
  | x :: xs, y :: ys, h => by
    simp only [qstringLess]
    split_ifs <;> first
      | simp
      | omega
      | (have hxy : x = y := by omega
         subst hxy
         have hne : xs ≠ ys := fun e => h (by rw [e])
         simpa using qstringLess_total xs ys hne)

theorem qstringLess_asymm (a b : QString) (h : qstringLess a b = true) :
    qstringLess b a = false := by
  cases hba : qstringLess b a with
  | false => rfl
  | true =>
    have := qstringLess_trans a b a h hba
    rw [qstringLess_irrefl] at this
    exact absurd this (by simp)

theorem nps_irrefl (p : Param) : normalizedParameterSort p p = false := by
  simp [normalizedParameterSort, qstringLess_irrefl]

theorem nps_trans (p q r : Param) (h1 : normalizedParameterSort p q = true)
    (h2 : normalizedParameterSort q r = true) : normalizedParameterSort p r = true := by
  obtain ⟨pk, pv⟩ := p
  obtain ⟨qk, qv⟩ := q
  obtain ⟨rk, rv⟩ := r
  simp only [normalizedParameterSort] at h1 h2 ⊢
  by_cases hpq : pk = qk <;> by_cases hqr : qk = rk
  · subst hpq; subst hqr
    simp only [if_true] at h1 h2 ⊢
    exact qstringLess_trans _ _ _ h1 h2
  · subst hpq
    simp only [if_true, if_neg hqr] at h1 h2 ⊢
    exact h2
  · subst hqr
    simp only [if_true, if_neg hpq] at h1 h2 ⊢
    exact h1
  · simp only [if_neg hpq, if_neg hqr] at h1 h2
    have h3 := qstringLess_trans _ _ _ h1 h2
    have hpr : pk ≠ rk := by
      intro e
      subst e
      rw [qstringLess_irrefl] at h3
      exact absurd h3 (by simp)
    simp only [if_neg hpr]
    exact h3

theorem nps_total (p q : Param) (h : p ≠ q) :
    normalizedParameterSort p q = true ∨ normalizedParameterSort q p = true := by
  obtain ⟨pk, pv⟩ := p
  obtain ⟨qk, qv⟩ := q
  simp only [normalizedParameterSort]
  by_cases hk : pk = qk
  · subst hk
    simp only [if_true]
    exact qstringLess_total pv qv (fun e => h (by rw [e]))
  · have hk2 : ¬ qk = pk := fun e => hk e.symm
    simp only [if_neg hk, if_neg hk2]
    exact qstringLess_total pk qk hk

theorem nps_asymm (p q : Param) (h : normalizedParameterSort p q = true) :
    normalizedParameterSort q p = false := by
  cases hqp : normalizedParameterSort q p with
  | false => rfl
  | true =>
    have := nps_trans p q p h hqp
    rw [nps_irrefl] at this
    exact absurd this (by simp)

theorem paramLe_of_less (p q : Param) (h : normalizedParameterSort p q = true) : paramLe p q :=
  nps_asymm p q h

theorem paramLe_trans (p q r : Param) (h1 : paramLe p q) (h2 : paramLe q r) : paramLe p r := by
  unfold paramLe at *
  cases hrp : normalizedParameterSort r p with
  | false => rfl
  | true =>
    by_cases hqp : q = p
    · subst hqp
      rw [hrp] at h2
      exact absurd h2 (by simp)
    · rcases nps_total q p hqp with h | h
      · rw [h] at h1
        exact absurd h1 (by simp)
      · have := nps_trans r p q hrp h
        rw [this] at h2
        exact absurd h2 (by simp)

theorem paramLe_antisymm (p q : Param) (h1 : paramLe p q) (h2 : paramLe q p) : p = q := by
  unfold paramLe at *
  by_contra hne
  rcases nps_total p q hne with h | h
  · rw [h] at h2
    exact absurd h2 (by simp)
  · rw [h] at h1
    exact absurd h1 (by simp)

theorem paramLe_iff (p q : Param) :
    paramLe p q ↔
      (qstringLess p.1 q.1 = true ∨
        (p.1 = q.1 ∧ (qstringLess p.2 q.2 = true ∨ p.2 = q.2))) := by
  constructor
  · intro h
    by_cases hpq : p = q
    · subst hpq
      exact Or.inr ⟨rfl, Or.inr rfl⟩
    · rcases nps_total p q hpq with h3 | h3
      · simp only [normalizedParameterSort] at h3
        by_cases hk : p.1 = q.1
        · rw [if_pos hk] at h3
          exact Or.inr ⟨hk, Or.inl h3⟩
        · rw [if_neg hk] at h3
          exact Or.inl h3
      · unfold paramLe at h
        rw [h3] at h
        exact absurd h (by simp)
  · intro h
    rcases h with h | ⟨hk, h | h⟩
    · apply paramLe_of_less
      simp only [normalizedParameterSort]
      have hk : p.1 ≠ q.1 := by
        intro e
        rw [e, qstringLess_irrefl] at h
        exact absurd h (by simp)
      rw [if_neg hk]
      exact h
    · apply paramLe_of_less
      simp only [normalizedParameterSort]
      rw [if_pos hk]
      exact h
    · have : p = q := Prod.ext hk h
      subst this
      exact nps_irrefl p

theorem orderedInsert_perm {α : Type} (lessThan : α → α → Bool) (x : α) (l : List α) :
    (orderedInsert lessThan x l).Perm (x :: l) := by
  induction l with
  | nil => exact List.Perm.refl _
  | cons y ys ih =>
    simp only [orderedInsert]
    split_ifs
    · exact ((List.Perm.cons y ih).trans (List.Perm.swap x y ys))
    · exact List.Perm.refl _

theorem qSort_perm {α : Type} (lessThan : α → α → Bool) (l : List α) :
    (qSort lessThan l).Perm l := by
  induction l with
  | nil => exact List.Perm.refl _
  | cons x xs ih =>
    simp only [qSort]
    exact (orderedInsert_perm lessThan x _).trans (List.Perm.cons x ih)

theorem orderedInsert_sorted (x : Param) (l : List Param) (h : l.Pairwise paramLe) :
    (orderedInsert normalizedParameterSort x l).Pairwise paramLe := by
  induction l with
  | nil => simp [orderedInsert]
  | cons y ys ih =>
    rw [List.pairwise_cons] at h
    simp only [orderedInsert]
    split_ifs with hyx
    · rw [List.pairwise_cons]
      refine ⟨?_, ih h.2⟩
      intro z hz
      rcases (List.mem_cons.mp ((orderedInsert_perm _ x ys).subset hz)) with hzx | hzy
      · subst hzx
        exact paramLe_of_less y z hyx
      · exact h.1 z hzy
    · have hxy : paramLe x y := by
        unfold paramLe
        simpa using hyx
      rw [List.pairwise_cons]
      refine ⟨?_, List.pairwise_cons.mpr h⟩
      intro z hz
      rcases List.mem_cons.mp hz with hzy | hzy
      · subst hzy
        exact hxy
      · exact paramLe_trans x y z hxy (h.1 z hzy)

theorem sortRequestParameters_perm (l : List Param) : (sortRequestParameters l).Perm l :=
  qSort_perm _ l

theorem sortRequestParameters_sorted (l : List Param) :
    (sortRequestParameters l).Pairwise paramLe := by
  induction l with
  | nil => simp [sortRequestParameters, qSort]
  | cons x xs ih => exact orderedInsert_sorted x _ ih

/-- A list has one sorted arrangement only: whatever sorting routine is used,
its result is `sortRequestParameters l`. -/
theorem sorted_perm_unique (l s : List Param) (hp : s.Perm l) (hs : s.Pairwise paramLe) :
    s = sortRequestParameters l := by
  haveI : IsAntisymm Param paramLe := ⟨paramLe_antisymm⟩
  exact List.eq_of_perm_of_sorted (hp.trans (sortRequestParameters_perm l).symm) hs
    (sortRequestParameters_sorted l)

theorem sortRequestParameters_congr (l1 l2 : List Param) (h : l1.Perm l2) :
    sortRequestParameters l1 = sortRequestParameters l2 :=
  sorted_perm_unique l2 _ ((sortRequestParameters_perm l1).trans h)
    (sortRequestParameters_sorted l1)

/-! ## The loop of `encodeParameters` joins the rendered pairs -/

/-- Once the first pair is written every further pair is preceded by `&`. -/
theorem encodeParametersLoop_false (ps : List Param) (acc : QByteArray) :
    encodeParametersLoop ps acc false
      = acc ++ (ps.map fun p =>
          lit "&" ++ (toPercentEncoding p.1 ++ lit "=" ++ toPercentEncoding p.2)).flatten := by
  induction ps generalizing acc with
  | nil => simp [encodeParametersLoop]
  | cons p ps ih =>
    simp only [encodeParametersLoop, Bool.not_false, if_true, ih, List.map_cons,
      List.flatten_cons, List.append_assoc]

theorem joinedParameters_cons (p : Param) (ps : List Param) :
    joinedParameters (p :: ps)
      = (toPercentEncoding p.1 ++ lit "=" ++ toPercentEncoding p.2)
        ++ (ps.map fun q =>
          lit "&" ++ (toPercentEncoding q.1 ++ lit "=" ++ toPercentEncoding q.2)).flatten := by
  induction ps generalizing p with
  | nil => simp [joinedParameters]
  | cons q qs ih =>
    have h := ih q
    simp only [joinedParameters, List.map_cons, List.intersperse, List.flatten_cons] at h ⊢
    rw [h]
    simp only [List.append_assoc]

theorem encodeParametersLoop_eq (ps : List Param) :
    encodeParametersLoop ps [] true = joinedParameters ps := by
  cases ps with
  | nil => simp [encodeParametersLoop, joinedParameters]
  | cons p ps =>
    rw [joinedParameters_cons]
    simp only [encodeParametersLoop, Bool.not_true, encodeParametersLoop_false,
      List.nil_append]
    simp

theorem encodeParameters_eq (ps : List Param) :
    encodeParameters ps = toPercentEncoding (fromAscii (joinedParameters ps)) := by
  simp only [encodeParameters, encodeParametersLoop_eq]

theorem toString_removeQuery (u : QUrl) (hq : Bool) (q : QString) :
    QUrl.toString { u with hasQuery := hq, query := q } true = u.toString true := by
  simp [QUrl.toString]

/-! ## Percent encoding: shape of the output -/

theorem isUnreserved_lt (c : Nat) (h : isUnreserved c = true) : c < 128 := by
  simp only [isUnreserved, Bool.or_eq_true, Bool.and_eq_true, decide_eq_true_eq] at h
  omega

theorem toHexHelper_unreserved (n : Nat) (h : n < 16) : isUnreserved (toHexHelper n) = true := by
  interval_cases n <;> rfl

theorem percentEncodeByte_mem (c x : Nat) (h : x ∈ percentEncodeByte c) :
    isUnreserved x = true ∨ x = 37 := by
  unfold percentEncodeByte at h
  split_ifs at h with hc
  · simp only [List.mem_singleton] at h
    subst h
    exact Or.inl hc
  · simp only [List.mem_cons, List.mem_singleton, List.not_mem_nil, or_false] at h
    rcases h with h | h | h
    · exact Or.inr h
    · subst h
      exact Or.inl (toHexHelper_unreserved _ (Nat.mod_lt _ (by decide)))
    · subst h
      exact Or.inl (toHexHelper_unreserved _ (Nat.mod_lt _ (by decide)))

theorem percentEncodeBytes_mem (ba : QByteArray) (x : Nat) (h : x ∈ percentEncodeBytes ba) :
    isUnreserved x = true ∨ x = 37 := by
  unfold percentEncodeBytes at h
  rw [List.mem_flatMap] at h
  obtain ⟨c, _, hx⟩ := h
  exact percentEncodeByte_mem c x hx

theorem toPercentEncoding_mem (s : QString) (x : Nat) (h : x ∈ toPercentEncoding s) :
    isUnreserved x = true ∨ x = 37 :=
  percentEncodeBytes_mem _ x h

theorem utf8Encode_ascii (u : Nat) (h : u < 128) : utf8Encode u = [u] := by
  simp [utf8Encode, h]

theorem toUtf8_ascii (s : QString) (h : ∀ x ∈ s, x < 128) : toUtf8 s = s := by
  unfold toUtf8
  induction s with
  | nil => rfl
  | cons u rest ih =>
    have hu : u < 128 := h u (List.mem_cons_self _ _)
    have hrest : ∀ x ∈ rest, x < 128 := fun x hx => h x (List.mem_cons_of_mem _ hx)
    have h1 : isHighSurrogate u = false := by
      simp only [isHighSurrogate, Bool.and_eq_false_imp, decide_eq_true_eq, decide_eq_false_iff_not]
      omega
    have h2 : isLowSurrogate u = false := by
      simp only [isLowSurrogate, Bool.and_eq_false_imp, decide_eq_true_eq, decide_eq_false_iff_not]
      omega
    simp [toUtf8Aux, h1, h2, utf8Encode_ascii u hu, ih hrest]

/-- Octets that may occur in the joined parameter string. -/
theorem joinedParameters_mem (ps : List Param) (x : Nat) (h : x ∈ joinedParameters ps) :
    isUnreserved x = true ∨ x = 37 ∨ x = 61 ∨ x = 38 := by
  have hpair : ∀ (p : Param) (y : Nat),
      y ∈ toPercentEncoding p.1 ++ lit "=" ++ toPercentEncoding p.2 →
        isUnreserved y = true ∨ y = 37 ∨ y = 61 ∨ y = 38 := by
    intro p y hy
    simp only [List.mem_append, lit_eq, List.mem_singleton] at hy
    rcases hy with (hy | hy) | hy
    · rcases toPercentEncoding_mem _ _ hy with h1 | h1
      · exact Or.inl h1
      · exact Or.inr (Or.inl h1)
    · exact Or.inr (Or.inr (Or.inl hy))
    · rcases toPercentEncoding_mem _ _ hy with h1 | h1
      · exact Or.inl h1
      · exact Or.inr (Or.inl h1)
  cases ps with
  | nil => simp [joinedParameters] at h
  | cons p ps =>
    rw [joinedParameters_cons] at h
    rw [List.mem_append] at h
    rcases h with h | h
    · exact hpair p x h
    · rw [List.mem_flatten] at h
      obtain ⟨l, hl, hx⟩ := h
      rw [List.mem_map] at hl
      obtain ⟨q, _, rfl⟩ := hl
      rw [List.mem_append] at hx
      rcases hx with hx | hx
      · simp only [lit_amp, List.mem_singleton] at hx
        exact Or.inr (Or.inr (Or.inr hx))
      · exact hpair q x hx

theorem joinedParameters_ascii (ps : List Param) : ∀ x ∈ joinedParameters ps, x < 128 := by
  intro x hx
  rcases joinedParameters_mem ps x hx with h | h | h | h
  · exact isUnreserved_lt x h
  · omega
  · omega
  · omega

/-- The second encoding pass works on the octets of the joined string. -/
theorem encodeParameters_eq_bytes (ps : List Param) :
    encodeParameters ps = percentEncodeBytes (joinedParameters ps) := by
  rw [encodeParameters_eq]
  unfold toPercentEncoding fromAscii
  rw [toUtf8_ascii _ (joinedParameters_ascii ps)]

/-! ## Double encoding of a space -/

theorem lit_pct20 : lit "%20" = [37, 50, 48] := rfl
theorem lit_pct2520 : lit "%2520" = [37, 50, 53, 50, 48] := rfl

theorem percentEncodeBytes_cons (c : Nat) (ba : QByteArray) :
    percentEncodeBytes (c :: ba) = percentEncodeByte c ++ percentEncodeBytes ba := by
  simp [percentEncodeBytes]

theorem percentEncodeBytes_append (a b : QByteArray) :
    percentEncodeBytes (a ++ b) = percentEncodeBytes a ++ percentEncodeBytes b := by
  simp [percentEncodeBytes]

theorem percentEncodeBytes_infix (a b : QByteArray) (h : a <:+: b) :
    percentEncodeBytes a <:+: percentEncodeBytes b := by
  obtain ⟨s, t, rfl⟩ := h
  rw [percentEncodeBytes_append, percentEncodeBytes_append]
  exact ⟨_, _, rfl⟩

/-- After the second pass a `%` is followed by `25`, `3D` or `26` only, so the
three characters `%20` never occur. -/
theorem no_pct20 (j : QByteArray)
    (hj : ∀ x ∈ j, isUnreserved x = true ∨ x = 37 ∨ x = 61 ∨ x = 38) :
    ¬ [37, 50, 48] <:+: percentEncodeBytes j := by
  induction j with
  | nil => simp [percentEncodeBytes]
  | cons c rest ih =>
    have hrest := ih (fun x hx => hj x (List.mem_cons_of_mem _ hx))
    rw [percentEncodeBytes_cons]
    rcases hj c (List.mem_cons_self _ _) with hc | hc | hc | hc
    · have hne : c ≠ 37 := by
        intro e
        subst e
        exact absurd hc (by decide)
      simp only [percentEncodeByte, hc, if_true, List.singleton_append, List.infix_cons_iff,
        List.cons_prefix_cons]
      intro h
      rcases h with ⟨h, _⟩ | h
      · exact hne h.symm
      · exact hrest h
    · subst hc
      intro h
      simp [percentEncodeByte, isUnreserved, toHexHelper, List.infix_cons_iff] at h
      exact hrest h
    · subst hc
      intro h
      simp [percentEncodeByte, isUnreserved, toHexHelper, List.infix_cons_iff] at h
      exact hrest h
    · subst hc
      intro h
      simp [percentEncodeByte, isUnreserved, toHexHelper, List.infix_cons_iff] at h
      exact hrest h

theorem mem_toUtf8Aux_space (s : QString) (h : 32 ∈ s) :
    ∀ pending : Option Nat, 32 ∈ toUtf8Aux pending s := by
  induction s with
  | nil => simp at h
  | cons u rest ih =>
    intro pending
    rcases List.mem_cons.mp h with hu | hrest
    · subst hu
      cases pending <;> simp [toUtf8Aux, isHighSurrogate, isLowSurrogate, utf8Encode]
    · have ih1 := ih hrest
      cases pending <;> simp only [toUtf8Aux] <;> split_ifs <;> simp [ih1]

theorem mem_infix_percentEncodeBytes (ba : QByteArray) (c : Nat) (h : c ∈ ba) :
    percentEncodeByte c <:+: percentEncodeBytes ba := by
  obtain ⟨s, t, rfl⟩ := List.append_of_mem h
  rw [percentEncodeBytes_append, percentEncodeBytes_cons]
  exact List.infix_append' _ _ _

theorem space_toPercentEncoding (s : QString) (h : 32 ∈ s) :
    [37, 50, 48] <:+: toPercentEncoding s := by
  have h1 : 32 ∈ toUtf8 s := mem_toUtf8Aux_space s h none
  exact mem_infix_percentEncodeBytes _ 32 h1

theorem pair_infix_joinedParameters (ps : List Param) (p : Param) (h : p ∈ ps) :
    (toPercentEncoding p.1 ++ lit "=" ++ toPercentEncoding p.2) <:+: joinedParameters ps := by
  cases ps with
  | nil => simp at h
  | cons q qs =>
    rw [joinedParameters_cons]
    rcases List.mem_cons.mp h with hq | hq
    · subst hq
      exact List.infix_append' [] _ _
    · obtain ⟨s, t, rfl⟩ := List.append_of_mem hq
      refine ⟨(toPercentEncoding q.1 ++ lit "=" ++ toPercentEncoding q.2)
        ++ (s.map fun q => lit "&" ++ (toPercentEncoding q.1 ++ lit "="
          ++ toPercentEncoding q.2)).flatten ++ lit "&", (t.map fun q => lit "&"
          ++ (toPercentEncoding q.1 ++ lit "=" ++ toPercentEncoding q.2)).flatten, ?_⟩
      simp

theorem space_encodeParameters (ps : List Param) (p : Param) (h : p ∈ ps)
    (hs : 32 ∈ p.1 ∨ 32 ∈ p.2) : [37, 50, 53, 50, 48] <:+: encodeParameters ps := by
  rw [encodeParameters_eq_bytes]
  have h1 : [37, 50, 48] <:+: joinedParameters ps := by
    refine List.IsInfix.trans ?_ (pair_infix_joinedParameters ps p h)
    rcases hs with hs | hs
    · obtain ⟨s, t, e⟩ := space_toPercentEncoding _ hs
      exact ⟨s, t ++ lit "=" ++ toPercentEncoding p.2, by rw [← e]; simp⟩
    · obtain ⟨s, t, e⟩ := space_toPercentEncoding _ hs
      exact ⟨toPercentEncoding p.1 ++ lit "=" ++ s, t, by rw [← e]; simp⟩
  exact percentEncodeBytes_infix _ _ h1

/-! ## HMAC: the pad loop and the digest -/

theorem sha1_length (msg : QByteArray) : (sha1 msg).length = 20 := by
  simp [sha1, be32]

theorem sha1_byte (msg : QByteArray) : ∀ x ∈ sha1 msg, x ≤ 255 := by
  intro x hx
  simp only [sha1, be32, List.mem_append, List.mem_cons, List.mem_singleton, List.not_mem_nil,
    or_false] at hx
  omega

theorem toAscii_fromAscii (ba : QByteArray) (h : ∀ x ∈ ba, x ≤ 255) :
    toAscii (fromAscii ba) = ba := by
  unfold toAscii fromAscii
  induction ba with
  | nil => rfl
  | cons b bs ih =>
    have hb : ¬ 255 < b := by
      have := h b (List.mem_cons_self _ _)
      omega
    simp only [List.map_cons, if_neg hb]
    rw [ih (fun x hx => h x (List.mem_cons_of_mem _ hx))]

theorem toAscii_length (s : QString) : (toAscii s).length = s.length := by
  simp [toAscii]

theorem set_map_take (f : Nat → Nat) (l : List Nat) (n : Nat) (h : n < l.length) :
    ((l.take n).map f ++ l.drop n).set n (f (((l.take n).map f ++ l.drop n).getD n 0))
      = (l.take (n + 1)).map f ++ l.drop (n + 1) := by
  induction l generalizing n with
  | nil => simp at h
  | cons x xs ih =>
    cases n with
    | zero => simp
    | succ m =>
      have hm : m < xs.length := by simpa using h
      have := ih m hm
      simpa using this

theorem hmacPad_loop (n : Nat) (l1 l2 : QByteArray) (h1 : n ≤ l1.length) (h2 : n ≤ l2.length) :
    (List.range n).foldl hmacPadStep (l1, l2)
      = ((l1.take n).map (fun b => b ^^^ 54) ++ l1.drop n,
         (l2.take n).map (fun b => b ^^^ 92) ++ l2.drop n) := by
  induction n with
  | zero => simp
  | succ m ih =>
    rw [List.range_succ, List.foldl_append, ih (by omega) (by omega)]
    simp only [List.foldl_cons, List.foldl_nil, hmacPadStep]
    rw [set_map_take (fun b => b ^^^ 54) l1 m (by omega),
      set_map_take (fun b => b ^^^ 92) l2 m (by omega)]

theorem replace_fill (kb : QByteArray) :
    replace (fill 0 64) 0 kb.length kb = kb ++ List.replicate (64 - kb.length) 0 := by
  simp only [replace, fill, List.take_zero, List.nil_append, Nat.zero_add, List.drop_replicate]

/-- The computation of `hmac_sha1` once the key octets `kb` that enter the pads
are fixed (at most one block long). -/
theorem hmac_core (msg kb : QByteArray) (hkb : kb.length ≤ 64) :
    let pads := (List.range 64).foldl hmacPadStep
      (replace (fill 0 64) 0 kb.length kb, replace (fill 0 64) 0 kb.length kb)
    sha1 (pads.2.take 64 ++ sha1 (pads.1.take 64 ++ msg))
      = sha1 ((kb ++ List.replicate (64 - kb.length) 0).map (fun b => b ^^^ 92)
          ++ sha1 ((kb ++ List.replicate (64 - kb.length) 0).map (fun b => b ^^^ 54) ++ msg)) := by
  intro pads
  have hlen : (kb ++ List.replicate (64 - kb.length) 0).length = 64 := by
    simp only [List.length_append, List.length_replicate]
    omega
  have hp : pads = ((kb ++ List.replicate (64 - kb.length) 0).map (fun b => b ^^^ 54),
      (kb ++ List.replicate (64 - kb.length) 0).map (fun b => b ^^^ 92)) := by
    show (List.range 64).foldl hmacPadStep _ = _
    rw [replace_fill, hmacPad_loop 64 _ _ (by omega) (by omega)]
    have ht : (kb ++ List.replicate (64 - kb.length) 0).take 64
        = kb ++ List.replicate (64 - kb.length) 0 := List.take_of_length_le (by omega)
    have hd : (kb ++ List.replicate (64 - kb.length) 0).drop 64 = [] :=
      List.drop_of_length_le (by omega)
    rw [ht, hd, List.append_nil, List.append_nil]
  rw [hp]
  have h1 : ((kb ++ List.replicate (64 - kb.length) 0).map (fun b => b ^^^ 54)).take 64
      = (kb ++ List.replicate (64 - kb.length) 0).map (fun b => b ^^^ 54) :=
    List.take_of_length_le (by rw [List.length_map]; omega)
  have h2 : ((kb ++ List.replicate (64 - kb.length) 0).map (fun b => b ^^^ 92)).take 64
      = (kb ++ List.replicate (64 - kb.length) 0).map (fun b => b ^^^ 92) :=
    List.take_of_length_le (by rw [List.length_map]; omega)
  simp only [h1, h2]

theorem hmac_sha1_eq_spec (message key : QString) :
    hmac_sha1 message key
      = fromAscii (toBase64 (hmacSha1Spec (toAscii message) (toAscii key))) := by
  unfold hmac_sha1 hmacSha1Spec
  by_cases hk : (toAscii key).length > 64
  · have hk2 : ¬ (toAscii key).length ≤ 64 := by omega
    simp only [if_pos hk, if_neg hk2]
    have := hmac_core (toAscii message) (sha1 (toAscii key)) (by rw [sha1_length]; omega)
    simp only at this
    rw [this]
  · have hk2 : (toAscii key).length ≤ 64 := by omega
    simp only [if_neg hk, if_pos hk2]
    have := hmac_core (toAscii message) (toAscii key) hk2
    simp only at this
    rw [this]

/-! ## Claims -/

/-- C1. For every request state, `requestBaseString` is the HTTP method
token, `&`, the percent-encoding of the endpoint with its query string removed,
`&`, and the percent-encoding of `J`, where `J` joins with `&` the pairs of the
protocol parameters followed by the additional parameters, sorted by
`sortRequestParameters`, each rendered as
`percentEncode(key) = percentEncode(value)`.  Two endpoints that differ only
in their query string give the same base string. -/
theorem requestBaseString_structure (d : KQOAuthRequestPrivate) :
    requestBaseString d
        = toUtf8 d.oauthHttpMethodString ++ lit "&"
          ++ toPercentEncoding ((d.oauthRequestEndpoint.withoutQuery).toString false) ++ lit "&"
          ++ toPercentEncoding (fromAscii (joinedParameters
              (sortRequestParameters (d.requestParameters ++ d.additionalParameters))))
      ∧ ∀ (hasQuery : Bool) (query : QString),
          requestBaseString { d with oauthRequestEndpoint :=
              { d.oauthRequestEndpoint with hasQuery := hasQuery, query := query } }
            = requestBaseString d := by
  constructor
  · simp [requestBaseString, encodeParameters_eq, QUrl.toString, QUrl.withoutQuery]
  · intro hq q
    simp only [requestBaseString, toString_removeQuery]

/-- C2. Double percent-encoding: a space (code 32) in a key or value of any
pair reaches the output of `encodeParameters` as the five characters `%2520`;
the output never holds a raw space nor the three characters `%20`.  For the
single additional parameter `name = "a b"` (no protocol parameters) the
parameter block is exactly `name%3Da%2520b`, so the base string contains
`a%2520b`. -/
theorem double_percent_encoding (ps : List Param) (p : Param) (hp : p ∈ ps)
    (hs : 32 ∈ p.1 ∨ 32 ∈ p.2) (d : KQOAuthRequestPrivate) :
    lit "%2520" <:+: encodeParameters ps
      ∧ 32 ∉ encodeParameters ps
      ∧ ¬ lit "%20" <:+: encodeParameters ps
      ∧ encodeParameters [(lit "name", lit "a b")] = lit "name%3Da%2520b"
      ∧ requestBaseString
          { d with requestParameters := [], additionalParameters := [(lit "name", lit "a b")] }
          = toUtf8 d.oauthHttpMethodString ++ lit "&"
            ++ toPercentEncoding (d.oauthRequestEndpoint.toString true) ++ lit "&"
            ++ lit "name%3Da%2520b"
      ∧ lit "a%2520b" <:+: requestBaseString
          { d with requestParameters := [], additionalParameters := [(lit "name", lit "a b")] } := by
  have hblock : encodeParameters [(lit "name", lit "a b")] = lit "name%3Da%2520b" := by decide
  have hbase : requestBaseString
      { d with requestParameters := [], additionalParameters := [(lit "name", lit "a b")] }
      = toUtf8 d.oauthHttpMethodString ++ lit "&"
        ++ toPercentEncoding (d.oauthRequestEndpoint.toString true) ++ lit "&"
        ++ lit "name%3Da%2520b" := by
    have hsort : sortRequestParameters [(lit "name", lit "a b")] = [(lit "name", lit "a b")] :=
      rfl
    simp only [requestBaseString, List.nil_append, hsort, hblock, List.append_assoc]
  refine ⟨?_, ?_, ?_, hblock, hbase, ?_⟩
  · rw [lit_pct2520]
    exact space_encodeParameters ps p hp hs
  · intro h
    rw [encodeParameters_eq_bytes] at h
    rcases percentEncodeBytes_mem _ _ h with h1 | h1
    · exact absurd h1 (by decide)
    · exact absurd h1 (by decide)
  · rw [lit_pct20, encodeParameters_eq_bytes]
    exact no_pct20 _ (joinedParameters_mem ps)
  · rw [hbase]
    have : lit "name%3Da%2520b" = lit "name%3D" ++ (lit "a%2520b" ++ []) := by decide
    rw [this, ← List.append_assoc]
    exact List.infix_append' _ _ _

/-- C2, at the parameter list holding only `name = "a b"`. -/
theorem double_percent_encoding_witness :
    ((lit "name", lit "a b") ∈ [(lit "name", lit "a b")]
        ∧ (32 ∈ (lit "name", lit "a b").1 ∨ 32 ∈ (lit "name", lit "a b").2))
      ∧ lit "%2520" <:+: encodeParameters [(lit "name", lit "a b")] :=
  ⟨⟨List.mem_singleton.mpr rfl, Or.inr (by decide)⟩,
    (double_percent_encoding [(lit "name", lit "a b")] (lit "name", lit "a b")
      (List.mem_singleton.mpr rfl) (Or.inr (by decide))
      ⟨⟨true, [], [], [], false, [], false, []⟩, .POST, [], [], [], [], [], [], [], [], [], [],
        [], [], 0⟩).1⟩

theorem qstringLess_iff_lex : ∀ a b : QString,
    qstringLess a b = true ↔ List.Lex (fun x y : Nat => x < y) a b
  | [], [] => by simp [qstringLess]
  | [], _ :: _ => by simp [qstringLess, List.Lex.nil]
  | _ :: _, [] => by simp [qstringLess]
  | x :: xs, y :: ys => by
    simp only [qstringLess]
    constructor
    · intro h
      split_ifs at h with h1 h2
      · exact List.Lex.rel h1
      · have hxy : x = y := by omega
        subst hxy
        exact List.Lex.cons ((qstringLess_iff_lex xs ys).mp h)
    · intro h
      cases h with
      | cons h1 =>
        have := (qstringLess_iff_lex xs ys).mpr h1
        simp [this]
      | rel h1 => simp [h1]

/-- C3. For every parameter list `l`, `sortRequestParameters l` is a
permutation of `l` (same pairs, same multiplicities) and is sorted ascending by
key and, among equal keys, ascending by value; keys and values are compared
lexicographically, code unit by code unit, on the unencoded strings
(`qstringLess` is the lexicographic order).  The comparator
`normalizedParameterSort` is a strict total order on pairs: irreflexive,
transitive, and any two distinct pairs are comparable. -/
theorem sortRequestParameters_sorted_perm (l : List Param) :
    (sortRequestParameters l).Perm l
      ∧ (sortRequestParameters l).Pairwise
          (fun p q => qstringLess p.1 q.1 = true
            ∨ (p.1 = q.1 ∧ (qstringLess p.2 q.2 = true ∨ p.2 = q.2)))
      ∧ (∀ a b : QString, qstringLess a b = true ↔ List.Lex (fun x y : Nat => x < y) a b)
      ∧ (∀ p : Param, normalizedParameterSort p p = false)
      ∧ (∀ p q r : Param, normalizedParameterSort p q = true →
          normalizedParameterSort q r = true → normalizedParameterSort p r = true)
      ∧ (∀ p q : Param, p ≠ q →
          normalizedParameterSort p q = true ∨ normalizedParameterSort q p = true) := by
  refine ⟨sortRequestParameters_perm l, ?_, qstringLess_iff_lex, nps_irrefl, nps_trans,
    nps_total⟩
  exact (sortRequestParameters_sorted l).imp (fun {p q} h => (paramLe_iff p q).mp h)

/-- C3, at two distinct pairs with the same key: they are comparable. -/
theorem sortRequestParameters_sorted_perm_witness :
    ((lit "a", lit "2") : Param) ≠ (lit "a", lit "1")
      ∧ (normalizedParameterSort (lit "a", lit "2") (lit "a", lit "1") = true
        ∨ normalizedParameterSort (lit "a", lit "1") (lit "a", lit "2") = true) :=
  ⟨by decide,
    (sortRequestParameters_sorted_perm []).2.2.2.2.2 (lit "a", lit "2") (lit "a", lit "1")
      (by decide)⟩

/-- C4. For parameter lists `l1`, `l2` that are permutations of each other,
`sortRequestParameters` returns the same list, hence `encodeParameters` of the
two sorted lists is the same octet string, and two requests with the same
method and endpoint whose parameters are `l1` and `l2` have the same base
string. -/
theorem sortRequestParameters_perm_invariant (l1 l2 : List Param) (h : l1.Perm l2) :
    sortRequestParameters l1 = sortRequestParameters l2
      ∧ encodeParameters (sortRequestParameters l1) = encodeParameters (sortRequestParameters l2)
      ∧ ∀ d1 d2 : KQOAuthRequestPrivate,
          d1.oauthHttpMethodString = d2.oauthHttpMethodString →
          d1.oauthRequestEndpoint = d2.oauthRequestEndpoint →
          d1.requestParameters ++ d1.additionalParameters = l1 →
          d2.requestParameters ++ d2.additionalParameters = l2 →
          requestBaseString d1 = requestBaseString d2 := by
  have hs := sortRequestParameters_congr l1 l2 h
  refine ⟨hs, by rw [hs], ?_⟩
  intro d1 d2 hm he h1 h2
  simp only [requestBaseString, List.nil_append, hm, he, h1, h2, hs]

/-- C4, at a two-element list and its reversal. -/
theorem sortRequestParameters_perm_invariant_witness :
    [((lit "b", lit "1") : Param), (lit "a", lit "2")].Perm [(lit "a", lit "2"), (lit "b", lit "1")]
      ∧ sortRequestParameters [(lit "b", lit "1"), (lit "a", lit "2")]
        = sortRequestParameters [(lit "a", lit "2"), (lit "b", lit "1")] :=
  ⟨List.Perm.swap _ _ _,
    (sortRequestParameters_perm_invariant _ _ (List.Perm.swap _ _ _)).1⟩

/-- C5. For every message and key, `hmac_sha1` returns the Base64 encoding of
`SHA1(opad ++ SHA1(ipad ++ message))` as the specification words it
(`hmacSha1Spec`: key octets, hashed first when longer than 64, zero-padded to
64, XORed with `0x36` / `0x5c`).  A key of exactly 64 octets enters the pads
unhashed, and a key longer than 64 octets gives the result obtained with its
20-octet SHA-1 digest as the key. -/
theorem hmac_sha1_refines_spec (message key : QString) :
    hmac_sha1 message key
        = fromAscii (toBase64 (hmacSha1Spec (toAscii message) (toAscii key)))
      ∧ ((toAscii key).length = 64 →
          hmac_sha1 message key
            = fromAscii (toBase64 (sha1 ((toAscii key).map (fun b => b ^^^ 92)
                ++ sha1 ((toAscii key).map (fun b => b ^^^ 54) ++ toAscii message)))))
      ∧ (64 < (toAscii key).length →
          (sha1 (toAscii key)).length = 20
            ∧ hmac_sha1 message key = hmac_sha1 message (fromAscii (sha1 (toAscii key)))) := by
  refine ⟨hmac_sha1_eq_spec message key, ?_, ?_⟩
  · intro h64
    rw [hmac_sha1_eq_spec]
    simp [hmacSha1Spec, h64]
  · intro hlong
    refine ⟨sha1_length _, ?_⟩
    rw [hmac_sha1_eq_spec, hmac_sha1_eq_spec message (fromAscii _),
      toAscii_fromAscii _ (sha1_byte _)]
    have h1 : ¬ (toAscii key).length ≤ 64 := by omega
    have h2 : (sha1 (toAscii key)).length ≤ 64 := by rw [sha1_length]; omega
    simp only [hmacSha1Spec, if_neg h1, if_pos h2]

/-- C5, at a key of 64 octets and at a key of 65 octets. -/
theorem hmac_sha1_refines_spec_witness :
    ((toAscii (List.replicate 64 97)).length = 64
        ∧ hmac_sha1 (lit "m") (List.replicate 64 97)
          = fromAscii (toBase64 (sha1 ((toAscii (List.replicate 64 97)).map (fun b => b ^^^ 92)
              ++ sha1 ((toAscii (List.replicate 64 97)).map (fun b => b ^^^ 54)
                ++ toAscii (lit "m"))))))
      ∧ (64 < (toAscii (List.replicate 65 97)).length
        ∧ hmac_sha1 (lit "m") (List.replicate 65 97)
          = hmac_sha1 (lit "m") (fromAscii (sha1 (toAscii (List.replicate 65 97))))) :=
  ⟨⟨by decide, (hmac_sha1_refines_spec (lit "m") (List.replicate 64 97)).2.1 (by decide)⟩,
    ⟨by decide, ((hmac_sha1_refines_spec (lit "m") (List.replicate 65 97)).2.2 (by decide)).2⟩⟩

/-- C6. `hmac_sha1` reproduces the seven HMAC-SHA1 test vectors of RFC 2202
(keys of 20, 4, 20, 25, 20, 80 and 80 octets), among them key `Jefe` with
digest `effcdf6a...` and the 80-octet key of `0xaa` with digest `aa4ae5e1...`;
each result is the Base64 encoding of the digest. -/
theorem hmac_sha1_rfc2202 :
    hmac_sha1 (lit "Hi There") (List.replicate 20 11)
        = fromAscii (toBase64 (fromHex "b617318655057264e28bc0b6fb378c8ef146be00"))
      ∧ hmac_sha1 (lit "what do ya want for nothing?") (lit "Jefe")
        = fromAscii (toBase64 (fromHex "effcdf6ae5eb2fa2d27416d5f184df9c259a7c79"))
      ∧ hmac_sha1 (lit "what do ya want for nothing?") (lit "Jefe")
        = lit "7/zfauXrL6LSdBbV8YTfnCWafHk="
      ∧ hmac_sha1 (List.replicate 50 221) (List.replicate 20 170)
        = fromAscii (toBase64 (fromHex "125d7342b9ac11cd91a39af48aa17b4f63f175d3"))
      ∧ hmac_sha1 (List.replicate 50 205) ((List.range 25).map fun i => i + 1)
        = fromAscii (toBase64 (fromHex "4c9007f4026250c6bc8414f9bf50c86c2d7235da"))
      ∧ hmac_sha1 (lit "Test With Truncation") (List.replicate 20 12)
        = fromAscii (toBase64 (fromHex "4c1a03424b55e07fe7f27be1d58bb9324a9a5a04"))
      ∧ hmac_sha1 (lit "Test Using Larger Than Block-Size Key - Hash Key First")
          (List.replicate 80 170)
        = fromAscii (toBase64 (fromHex "aa4ae5e15272d00e95705637ce8a3b55ed402112"))
      ∧ hmac_sha1 (lit "Test Using Larger Than Block-Size Key - Hash Key First")
          (List.replicate 80 170)
        = lit "qkrl4VJy0A6VcFY3zoo7Ve1AIRI="
      ∧ hmac_sha1
          (lit "Test Using Larger Than Block-Size Key and Larger Than One Block-Size Data")
          (List.replicate 80 170)
        = fromAscii (toBase64 (fromHex "e8e99d0f45237d786d6bbaa7965c7808bbff1a91"))
      ∧ hmac_sha1 (lit "Hi There") (List.replicate 64 170)
        = fromAscii (toBase64 (fromHex "e83ee1c362c86cc004df4f912a641c1bd844f36c")) := by
  refine ⟨?_, ?_, ?_, ?_, ?_, ?_, ?_, ?_, ?_, ?_⟩ <;> decide

theorem toPercentEncoding_no_amp (s : QString) : 38 ∉ toPercentEncoding s := by
  intro h
  rcases toPercentEncoding_mem s 38 h with h1 | h1
  · exact absurd h1 (by decide)
  · exact absurd h1 (by decide)

/-- C7. For every consumer secret `cs` and token secret `ts` (empty ones
included) the key that `oauthSignature` hands to `hmac_sha1` is
`percentEncode(cs) + "&" + percentEncode(ts)`; it contains exactly one `&`
(code 38), it is exactly `&` when both secrets are empty, and
`oauthSignature(base, cs, ts)` is the percent-encoding of
`hmac_sha1(base, key)`. -/
theorem oauthSignature_key (base : QByteArray) (cs ts : QString) :
    oauthSignatureSecret cs ts
        = fromAscii (toPercentEncoding cs) ++ lit "&" ++ fromAscii (toPercentEncoding ts)
      ∧ (oauthSignatureSecret cs ts).count 38 = 1
      ∧ oauthSignatureSecret [] [] = lit "&"
      ∧ oauthSignature base cs ts
        = fromAscii (toPercentEncoding (hmac_sha1 (fromAscii base) (oauthSignatureSecret cs ts))) := by
  refine ⟨rfl, ?_, by decide, rfl⟩
  simp only [oauthSignatureSecret, fromAscii, List.count_append, lit_amp]
  rw [List.count_eq_zero.mpr (toPercentEncoding_no_amp cs),
    List.count_eq_zero.mpr (toPercentEncoding_no_amp ts)]
  rfl

/-- C8. For every valid request whose protocol parameter list is empty, one
call of `requestParameters` returns, and leaves as protocol parameters exactly
seven entries, every name once, in the order `oauth_signature_method`
(`HMAC-SHA1`), `oauth_consumer_key`, `oauth_version` (`1.0`), `oauth_timestamp`,
`oauth_nonce`, `oauth_token`, `oauth_signature`.  The signature entry is last
and its value is `oauthSignature(B, consumerSecret, tokenSecret)`, `B` being
the base string over the first six entries and the additional parameters;
none of those six entries is named `oauth_signature`. -/
theorem requestParameters_first_call (qtNoDebug : Bool) (w : World)
    (d : KQOAuthRequestPrivate) (hvalid : validateRequest d = true)
    (hempty : d.requestParameters = []) :
    let six : List Param :=
      [(OAUTH_KEY_SIGNATURE_METHOD, lit "HMAC-SHA1"),
       (OAUTH_KEY_CONSUMER_KEY, d.oauthConsumerKey),
       (OAUTH_KEY_VERSION, lit "1.0"),
       (OAUTH_KEY_TIMESTAMP, number (w.clock w.clockReads)),
       (OAUTH_KEY_NONCE, numberInt (wrapInt32 ((w.rand w.randCalls : Int) + w.offset))),
       (OAUTH_KEY_TOKEN, d.oauthToken)]
    let baseString := requestBaseString { d with requestParameters := six }
    let signature := oauthSignature baseString d.oauthConsumerSecretKey d.oauthTokenSecret
    let seven : List Param := six ++ [(OAUTH_KEY_SIGNATURE, signature)]
    requestParameters qtNoDebug w d
        = some (seven.map headerEntry,
            { w with clockReads := w.clockReads + 1, randCalls := w.randCalls + 1,
                     offset := wrapInt32 (w.offset + 1) },
            { d with requestParameters := seven })
      ∧ seven.length = 7
      ∧ seven.map Prod.fst
        = [lit "oauth_signature_method", lit "oauth_consumer_key", lit "oauth_version",
           lit "oauth_timestamp", lit "oauth_nonce", lit "oauth_token", lit "oauth_signature"]
      ∧ (seven.map Prod.fst).Nodup
      ∧ seven.getLast? = some (OAUTH_KEY_SIGNATURE, signature)
      ∧ (∀ p ∈ six, p.1 ≠ OAUTH_KEY_SIGNATURE)
      ∧ baseString
        = toUtf8 d.oauthHttpMethodString ++ lit "&"
          ++ toPercentEncoding (d.oauthRequestEndpoint.toString true) ++ lit "&"
          ++ encodeParameters (sortRequestParameters (six ++ d.additionalParameters)) := by
  intro six baseString signature seven
  have hv : validateRequest { d with requestParameters := six } = true := hvalid
  have hnames : seven.map Prod.fst
      = [lit "oauth_signature_method", lit "oauth_consumer_key", lit "oauth_version",
         lit "oauth_timestamp", lit "oauth_nonce", lit "oauth_token", lit "oauth_signature"] :=
    rfl
  refine ⟨?_, rfl, hnames, by rw [hnames]; decide, ?_, ?_, ?_⟩
  · simp only [requestParameters, prepareRequest, hempty, List.isEmpty_nil, Bool.not_true,
      Bool.false_eq_true, if_false, List.nil_append, oauthTimestamp, oauthNonce]
    have hv2 := hv
    simp only [six, List.cons_append, List.nil_append] at hv2 ⊢
    rw [hv2]
    simp only [Bool.not_true, Bool.false_and, Bool.false_eq_true, if_false]
    rfl
  · simp [seven, six]
  · intro p hp
    simp only [six, List.mem_cons, List.mem_singleton, List.not_mem_nil, or_false] at hp
    rcases hp with h | h | h | h | h | h <;> subst h <;> dsimp only <;> decide
  · simp only [baseString, requestBaseString, List.nil_append, List.append_assoc]

/-- C8, at the fixture request. -/
theorem requestParameters_first_call_witness :
    (validateRequest sampleRequest = true ∧ sampleRequest.requestParameters = [])
      ∧ ∃ out st, requestParameters false sampleWorld sampleRequest = some (out, st)
          ∧ out.length = 7 := by
  refine ⟨⟨by decide, rfl⟩, ?_⟩
  have h := (requestParameters_first_call false sampleWorld sampleRequest (by decide) rfl).1
  exact ⟨_, _, h, rfl⟩

/-- C10. Idempotence guard: for every request state whose protocol parameter
list is non-empty `prepareRequest` leaves the whole state (and the world)
unchanged; hence for every state a second `prepareRequest` changes nothing,
in particular the protocol parameter list after two calls is the one after a
single call, which has six entries when the list was empty. -/
theorem prepareRequest_idempotent (w : World) (d : KQOAuthRequestPrivate) :
    (d.requestParameters ≠ [] → prepareRequest w d = (w, d))
      ∧ prepareRequest (prepareRequest w d).1 (prepareRequest w d).2 = prepareRequest w d
      ∧ (prepareRequest (prepareRequest w d).1 (prepareRequest w d).2).2.requestParameters
        = (prepareRequest w d).2.requestParameters
      ∧ (d.requestParameters = [] → (prepareRequest w d).2.requestParameters.length = 6) := by
  have hguard : ∀ (w1 : World) (d1 : KQOAuthRequestPrivate),
      d1.requestParameters ≠ [] → prepareRequest w1 d1 = (w1, d1) := by
    intro w1 d1 h
    cases hps : d1.requestParameters with
    | nil => exact absurd hps h
    | cons p ps => simp [prepareRequest, hps]
  have hne : (prepareRequest w d).2.requestParameters ≠ [] := by
    cases hps : d.requestParameters with
    | nil => simp [prepareRequest, hps]
    | cons p ps =>
      rw [hguard w d (by rw [hps]; simp), hps]
      simp
  have htwice := hguard (prepareRequest w d).1 (prepareRequest w d).2 hne
  refine ⟨hguard w d, htwice, by rw [htwice], ?_⟩
  intro hempty
  simp [prepareRequest, hempty]

/-- C10, at the fixture request after its first preparation. -/
theorem prepareRequest_idempotent_witness :
    (prepareRequest sampleWorld sampleRequest).2.requestParameters ≠ []
      ∧ prepareRequest (prepareRequest sampleWorld sampleRequest).1
          (prepareRequest sampleWorld sampleRequest).2
        = ((prepareRequest sampleWorld sampleRequest).1,
           (prepareRequest sampleWorld sampleRequest).2) :=
  ⟨by decide,
    (prepareRequest_idempotent (prepareRequest sampleWorld sampleRequest).1
      (prepareRequest sampleWorld sampleRequest).2).1 (by decide)⟩

/-- C9. Evaluation of two consecutive calls of `requestParameters` on the
fixture request (build with assertions, clock at `1000000000`, `qrand()`
returning `7`).  The first call returns seven header entries.  The second call
signs again: its base string is computed over the protocol parameters that
already hold the first `oauth_signature`, so it differs from the first base
string, and the returned list has eight entries, two of them named
`oauth_signature` with different values. -/
theorem requestParameters_second_call_signs_again :
    (requestParameters false sampleWorld sampleRequest).map (fun r => r.1)
        = some [lit "oauth_signature_method=\"HMAC-SHA1\"", lit "oauth_consumer_key=\"ck\"",
            lit "oauth_version=\"1.0\"", lit "oauth_timestamp=\"1000000000\"",
            lit "oauth_nonce=\"7\"", lit "oauth_token=\"tok\"",
            lit "oauth_signature=\"ftqSE4Ff6yTuoqrUZB6M%2BcfK5cc%3D\""]
      ∧ ((requestParameters false sampleWorld sampleRequest).bind
            fun r => requestParameters false r.2.1 r.2.2).map (fun r => r.1)
        = some [lit "oauth_signature_method=\"HMAC-SHA1\"", lit "oauth_consumer_key=\"ck\"",
            lit "oauth_version=\"1.0\"", lit "oauth_timestamp=\"1000000000\"",
            lit "oauth_nonce=\"7\"", lit "oauth_token=\"tok\"",
            lit "oauth_signature=\"ftqSE4Ff6yTuoqrUZB6M%2BcfK5cc%3D\"",
            lit "oauth_signature=\"xpO2YbZn4%2FKpFZMXuLOp7Uugub4%3D\""]
      ∧ requestBaseString (prepareRequest sampleWorld sampleRequest).2
        = lit ("POST&https%3A%2F%2Fapi.example.com%2Fresource&oauth_consumer_key%3Dck"
            ++ "%26oauth_nonce%3D7%26oauth_signature_method%3DHMAC-SHA1"
            ++ "%26oauth_timestamp%3D1000000000%26oauth_token%3Dtok%26oauth_version%3D1.0")
      ∧ (requestParameters false sampleWorld sampleRequest).map
          (fun r => requestBaseString (prepareRequest r.2.1 r.2.2).2)
        = some (lit ("POST&https%3A%2F%2Fapi.example.com%2Fresource&oauth_consumer_key%3Dck"
            ++ "%26oauth_nonce%3D7"
            ++ "%26oauth_signature%3DftqSE4Ff6yTuoqrUZB6M%25252BcfK5cc%25253D"
            ++ "%26oauth_signature_method%3DHMAC-SHA1"
            ++ "%26oauth_timestamp%3D1000000000%26oauth_token%3Dtok%26oauth_version%3D1.0")) := by
  refine ⟨?_, ?_, ?_, ?_⟩ <;> decide

/-! ## Decimal rendering -/

theorem numberAux_ne_nil (fuel n : Nat) (acc : List Nat) (h : acc ≠ [] ∨ 0 < fuel) :
    numberAux fuel n acc ≠ [] := by
  induction fuel generalizing n acc with
  | zero =>
    rcases h with h | h
    · simpa [numberAux] using h
    · omega
  | succ k ih =>
    simp only [numberAux]
    split_ifs
    · simp
    · exact ih _ _ (Or.inl (by simp))

theorem number_ne_nil (n : Nat) : number n ≠ [] :=
  numberAux_ne_nil (n + 1) n [] (Or.inr (by omega))

/-! ## Multi-maps and the loops over additional parameters -/

theorem getD_length_append {α : Type} (pre post : List α) (x dflt : α) :
    (pre ++ x :: post).getD pre.length dflt = x := by
  induction pre with
  | nil => rfl
  | cons a as ih => simpa using ih

theorem setAdditionalParametersLoop_eq (pre post : List Param) (acc : List Param) :
    setAdditionalParametersLoop (post.map Prod.fst) ((pre ++ post).map Prod.snd) pre.length acc
      = acc ++ post := by
  induction post generalizing pre acc with
  | nil => simp [setAdditionalParametersLoop]
  | cons p ps ih =>
    have h := ih (pre ++ [p]) (acc ++ [(p.1, p.2)])
    simp only [List.append_assoc, List.singleton_append, List.length_append,
      List.length_singleton] at h
    simp only [List.map_cons, setAdditionalParametersLoop]
    have hget : ((pre ++ p :: ps).map Prod.snd).getD pre.length [] = p.2 := by
      have := getD_length_append (pre.map Prod.snd) (ps.map Prod.snd) p.2 []
      rw [List.length_map] at this
      rw [List.map_append, List.map_cons]
      exact this
    rw [hget, h]

theorem setAdditionalParameters_stored (d : KQOAuthRequestPrivate) (m : KQOAuthParameters) :
    (setAdditionalParameters d m).additionalParameters = d.additionalParameters ++ m := by
  have := setAdditionalParametersLoop_eq [] m d.additionalParameters
  simpa [setAdditionalParameters, multiMapKeys, multiMapValues] using this

theorem createQueryParamsLoop_eq (pre post : List Param) (acc : List Param) :
    createQueryParamsLoop post.length pre.length ((pre ++ post).map Prod.fst)
        ((pre ++ post).map Prod.snd) acc
      = acc ++ post := by
  induction post generalizing pre acc with
  | nil => simp [createQueryParamsLoop]
  | cons p ps ih =>
    have h := ih (pre ++ [p]) (acc ++ [(p.1, p.2)])
    simp only [List.append_assoc, List.singleton_append, List.length_append,
      List.length_singleton] at h
    simp only [List.length_cons, createQueryParamsLoop]
    have hk : ((pre ++ p :: ps).map Prod.fst).getD pre.length [] = p.1 := by
      have := getD_length_append (pre.map Prod.fst) (ps.map Prod.fst) p.1 []
      rw [List.length_map] at this
      rw [List.map_append, List.map_cons]
      exact this
    have hv : ((pre ++ p :: ps).map Prod.snd).getD pre.length [] = p.2 := by
      have := getD_length_append (pre.map Prod.snd) (ps.map Prod.snd) p.2 []
      rw [List.length_map] at this
      rw [List.map_append, List.map_cons]
      exact this
    rw [hk, hv, h]

/-- Pairing `keys()` and `values()` position by position gives back the items
of the multi-map. -/
theorem createQueryParams_eq (m : KQOAuthParameters) : createQueryParams m = m := by
  have := createQueryParamsLoop_eq [] m []
  simpa [createQueryParams, multiMapKeys, multiMapValues] using this

theorem multiMapInsert_perm (m : KQOAuthParameters) (k v : QString) :
    (multiMapInsert m k v).Perm ((k, v) :: m) := by
  induction m with
  | nil => exact List.Perm.refl _
  | cons y ys ih =>
    simp only [multiMapInsert]
    split_ifs
    · exact (List.Perm.cons y ih).trans (List.Perm.swap (k, v) y ys)
    · exact List.Perm.refl _

theorem multiMapInsert_sorted (m : KQOAuthParameters) (k v : QString)
    (h : m.Pairwise fun p q => qstringLess q.1 p.1 = false) :
    (multiMapInsert m k v).Pairwise fun p q => qstringLess q.1 p.1 = false := by
  induction m with
  | nil => simp [multiMapInsert]
  | cons y ys ih =>
    rw [List.pairwise_cons] at h
    simp only [multiMapInsert]
    split_ifs with hyk
    · rw [List.pairwise_cons]
      refine ⟨?_, ih h.2⟩
      intro z hz
      rcases List.mem_cons.mp ((multiMapInsert_perm ys k v).subset hz) with hzx | hzy
      · subst hzx
        exact qstringLess_asymm _ _ hyk
      · exact h.1 z hzy
    · have hky : qstringLess y.1 k = false := by simpa using hyk
      rw [List.pairwise_cons]
      refine ⟨?_, List.pairwise_cons.mpr h⟩
      intro z hz
      rcases List.mem_cons.mp hz with hzy | hzy
      · subst hzy
        exact hky
      · -- `z` is not before `y`, and `y` is not before the new key
        have hzy2 := h.1 z hzy
        cases hzk : qstringLess z.1 k with
        | false => rfl
        | true =>
          exfalso
          by_cases hyk2 : y.1 = k
          · rw [hyk2] at hzy2
            rw [hzk] at hzy2
            exact absurd hzy2 (by simp)
          · rcases qstringLess_total y.1 k hyk2 with h1 | h1
            · rw [h1] at hky
              exact absurd hky (by simp)
            · have := qstringLess_trans _ _ _ hzk h1
              rw [this] at hzy2
              exact absurd hzy2 (by simp)

theorem multiMapInsert_filter (m : KQOAuthParameters) (k v key : QString) :
    (multiMapInsert m k v).filter (fun p => decide (p.1 = key))
      = if k = key then (k, v) :: m.filter (fun p => decide (p.1 = key))
        else m.filter (fun p => decide (p.1 = key)) := by
  by_cases hk : k = key
  · subst hk
    simp only [if_true]
    induction m with
    | nil => simp [multiMapInsert]
    | cons y ys ih =>
      simp only [multiMapInsert]
      split_ifs with hyk
      · -- `y` has a smaller key than `k`, so it is not an item of the key `k`
        have hne : y.1 ≠ k := by
          intro e
          rw [e, qstringLess_irrefl] at hyk
          exact absurd hyk (by simp)
        simp [List.filter_cons, hne, ih]
      · simp [List.filter_cons]
  · simp only [if_neg hk]
    induction m with
    | nil => simp [multiMapInsert, hk]
    | cons y ys ih =>
      simp only [multiMapInsert]
      split_ifs with hyk
      · by_cases hy : y.1 = key <;> simp [List.filter_cons, hy, ih]
      · simp [List.filter_cons, hk]

theorem additionalParameters_perm (d : KQOAuthRequestPrivate) :
    (additionalParameters d).Perm d.additionalParameters := by
  have h : ∀ (l : List Param) (acc : KQOAuthParameters),
      (l.foldl (fun m p => multiMapInsert m p.1 p.2) acc).Perm (acc ++ l) := by
    intro l
    induction l with
    | nil => intro acc; simp
    | cons p ps ih =>
      intro acc
      simp only [List.foldl_cons]
      refine (ih _).trans ?_
      refine ((multiMapInsert_perm acc p.1 p.2).append_right ps).trans ?_
      have hmid : (acc ++ p :: ps).Perm (p :: (acc ++ ps)) := List.perm_middle
      simpa using hmid.symm
  simpa [additionalParameters] using h d.additionalParameters []

theorem additionalParameters_sorted (d : KQOAuthRequestPrivate) :
    (additionalParameters d).Pairwise fun p q => qstringLess q.1 p.1 = false := by
  have h : ∀ (l : List Param) (acc : KQOAuthParameters),
      acc.Pairwise (fun p q => qstringLess q.1 p.1 = false) →
        (l.foldl (fun m p => multiMapInsert m p.1 p.2) acc).Pairwise
          (fun p q => qstringLess q.1 p.1 = false) := by
    intro l
    induction l with
    | nil => intro acc hacc; simpa using hacc
    | cons p ps ih =>
      intro acc hacc
      simp only [List.foldl_cons]
      exact ih _ (multiMapInsert_sorted acc p.1 p.2 hacc)
  exact h d.additionalParameters [] List.Pairwise.nil

theorem additionalParameters_filter (d : KQOAuthRequestPrivate) (key : QString) :
    (additionalParameters d).filter (fun p => decide (p.1 = key))
      = (d.additionalParameters.filter (fun p => decide (p.1 = key))).reverse := by
  have h : ∀ (l : List Param) (acc : KQOAuthParameters),
      (l.foldl (fun m p => multiMapInsert m p.1 p.2) acc).filter (fun p => decide (p.1 = key))
        = (l.filter (fun p => decide (p.1 = key))).reverse
          ++ acc.filter (fun p => decide (p.1 = key)) := by
    intro l
    induction l with
    | nil => intro acc; simp
    | cons p ps ih =>
      intro acc
      obtain ⟨pk, pv⟩ := p
      simp only [List.foldl_cons]
      rw [ih, multiMapInsert_filter]
      by_cases hp : pk = key
      · subst hp
        simp [List.filter_cons]
      · simp [List.filter_cons, hp]
  simpa [additionalParameters] using h d.additionalParameters []

/-! ## Request body, header and `executeRequest` -/

theorem toUtf8_lit_eq : toUtf8 (lit "=") = lit "=" := rfl

theorem requestBodyLoop_eq (ps : List Param) (acc : QByteArray) (first : Bool) :
    requestBodyLoop ps acc first = encodeParametersLoop ps acc first := by
  induction ps generalizing acc first with
  | nil => rfl
  | cons p ps ih => simp only [requestBodyLoop, encodeParametersLoop, toUtf8_lit_eq, ih]

theorem requestBody_eq (d : KQOAuthRequestPrivate) :
    requestBody d = joinedParameters d.additionalParameters := by
  rw [requestBody, requestBodyLoop_eq, encodeParametersLoop_eq]

theorem authHeaderLoop_false (hs : List QByteArray) (acc : QByteArray) :
    authHeaderLoop hs acc false = acc ++ (hs.map fun h => lit ", " ++ h).flatten := by
  induction hs generalizing acc with
  | nil => simp [authHeaderLoop]
  | cons h hs ih =>
    simp only [authHeaderLoop, Bool.not_false, if_true, ih, List.map_cons, List.flatten_cons,
      List.append_assoc]

theorem flatten_intersperse_cons (sep x : List Nat) (xs : List (List Nat)) :
    (List.intersperse sep (x :: xs)).flatten = x ++ (xs.map fun h => sep ++ h).flatten := by
  induction xs generalizing x with
  | nil => simp
  | cons y ys ih =>
    have h := ih y
    simp only [List.intersperse, List.flatten_cons, List.map_cons] at h ⊢
    rw [h]
    simp only [List.append_assoc]

theorem authHeaderLoop_eq (h : QByteArray) (hs : List QByteArray) :
    authHeaderLoop (h :: hs) [] true
      = lit "OAuth " ++ (List.intersperse (lit ", ") (h :: hs)).flatten := by
  rw [flatten_intersperse_cons]
  simp only [authHeaderLoop, Bool.not_true, authHeaderLoop_false, List.nil_append]
  simp

theorem prepareRequest_fields (w : World) (d : KQOAuthRequestPrivate) :
    (prepareRequest w d).2
      = { d with requestParameters := (prepareRequest w d).2.requestParameters } := by
  unfold prepareRequest
  split_ifs <;> rfl

theorem signRequest_fields (d : KQOAuthRequestPrivate) :
    signRequest d = { d with requestParameters := (signRequest d).requestParameters } := rfl

/-- The request state after `requestParameters`: only the protocol parameter
list differs from the state before. -/
theorem signed_fields (w : World) (d : KQOAuthRequestPrivate) :
    signRequest (prepareRequest w d).2
      = { d with requestParameters := (signRequest (prepareRequest w d).2).requestParameters } := by
  unfold prepareRequest
  split_ifs <;> rfl

theorem validateRequest_prepared (w : World) (d : KQOAuthRequestPrivate) :
    validateRequest (prepareRequest w d).2 = validateRequest d := by
  rw [prepareRequest_fields]
  rfl

theorem requestParameters_valid (qtNoDebug : Bool) (w : World) (d : KQOAuthRequestPrivate)
    (hvalid : validateRequest d = true) :
    requestParameters qtNoDebug w d
      = some ((signRequest (prepareRequest w d).2).requestParameters.map headerEntry,
          (prepareRequest w d).1, signRequest (prepareRequest w d).2) := by
  simp [requestParameters, validateRequest_prepared, hvalid]

theorem signed_ne_nil (w : World) (d : KQOAuthRequestPrivate) :
    (signRequest (prepareRequest w d).2).requestParameters ≠ [] := by
  simp [signRequest]

/-- What `executeRequest` does with a request that passes both checks. -/
theorem executeRequest_valid (qtNoDebug : Bool) (m : KQOAuthManager) (w : World)
    (d : KQOAuthRequestPrivate) (hurl : d.oauthRequestEndpoint.isValid = true)
    (hvalid : validateRequest d = true) :
    executeRequest qtNoDebug m w (some d)
      = some ⟨m, (prepareRequest w d).1, some (signRequest (prepareRequest w d).2),
          some
            { verb := d.oauthHttpMethod
              url :=
                match d.oauthHttpMethod with
                | RequestHttpMethod.GET =>
                  d.oauthRequestEndpoint.setQueryItems (createQueryParams (additionalParameters d))
                | RequestHttpMethod.POST => d.oauthRequestEndpoint
              authorization :=
                lit "OAuth " ++ (List.intersperse (lit ", ")
                  ((signRequest (prepareRequest w d).2).requestParameters.map headerEntry)).flatten
              contentTypeHeader :=
                match d.oauthHttpMethod with
                | RequestHttpMethod.GET => none
                | RequestHttpMethod.POST => some d.contentType
              body :=
                match d.oauthHttpMethod with
                | RequestHttpMethod.GET => none
                | RequestHttpMethod.POST =>
                  some (if d.contentType = lit "application/x-www-form-urlencoded"
                    then requestBody d else d.postRawData) }⟩ := by
  have hs := signed_fields w d
  have hne := signed_ne_nil w d
  have hauth : authHeaderLoop
      ((signRequest (prepareRequest w d).2).requestParameters.map headerEntry) [] true
      = lit "OAuth " ++ (List.intersperse (lit ", ")
          ((signRequest (prepareRequest w d).2).requestParameters.map headerEntry)).flatten := by
    cases hps : (signRequest (prepareRequest w d).2).requestParameters with
    | nil => exact absurd hps hne
    | cons p ps => rw [List.map_cons, authHeaderLoop_eq]
  have hmeth : (signRequest (prepareRequest w d).2).oauthHttpMethod = d.oauthHttpMethod := by
    rw [hs]
  have hct : (signRequest (prepareRequest w d).2).contentType = d.contentType := by
    rw [hs]
  have hraw : (signRequest (prepareRequest w d).2).postRawData = d.postRawData := by
    rw [hs]
  have hadd : additionalParameters (signRequest (prepareRequest w d).2)
      = additionalParameters d := by
    rw [hs]
    rfl
  have hbody : requestBody (signRequest (prepareRequest w d).2) = requestBody d := by
    rw [hs]
    rfl
  simp only [executeRequest, hurl, hvalid, Bool.not_true, Bool.false_eq_true, if_false,
    requestParameters_valid qtNoDebug w d hvalid, hauth, hmeth, hct, hraw, hadd, hbody]
  cases d.oauthHttpMethod with
  | GET => rfl
  | POST =>
    by_cases hc : d.contentType = lit "application/x-www-form-urlencoded"
    · simp only [if_pos hc]
    · simp only [if_neg hc]

/-! ## Claims on validation and initialisation -/

/-- C11. For every request state `validateRequest` (all that `isValid` calls)
is true exactly when the endpoint, consumer key, nonce, timestamp, token and
token secret are all non-empty; the consumer secret, verifier, additional
parameters, content type and raw body have no influence.  `executeRequest` on
a request with a valid endpoint and `isValid()` false records
`RequestValidationError`, returns no reply and leaves request and world as
they were. -/
theorem validateRequest_iff (qtNoDebug : Bool) (m : KQOAuthManager) (w : World)
    (d : KQOAuthRequestPrivate) :
    (validateRequest d = true ↔
        d.oauthRequestEndpoint.isEmpty = false ∧ d.oauthConsumerKey ≠ [] ∧ d.oauthNonce_ ≠ []
          ∧ d.oauthTimestamp_ ≠ [] ∧ d.oauthToken ≠ [] ∧ d.oauthTokenSecret ≠ [])
      ∧ (∀ (cs verifier : QString) (additional : List Param) (ct : QString) (raw : QByteArray),
          validateRequest
              { d with oauthConsumerSecretKey := cs, oauthVerifier := verifier,
                       additionalParameters := additional, contentType := ct,
                       postRawData := raw }
            = validateRequest d)
      ∧ (d.oauthRequestEndpoint.isValid = true → validateRequest d = false →
          ∃ r, executeRequest qtNoDebug m w (some d) = some r
            ∧ r.manager = { m with error := KQOAuthError.RequestValidationError }
            ∧ r.reply = none ∧ r.request = some d ∧ r.world = w) := by
  refine ⟨?_, fun _ _ _ _ _ => rfl, ?_⟩
  · simp only [validateRequest, Bool.or_eq_true, List.isEmpty_iff]
    constructor
    · intro h
      split_ifs at h with hc
      simp only [not_or] at hc
      obtain ⟨⟨⟨⟨⟨h1, h2⟩, h3⟩, h4⟩, h5⟩, h6⟩ := hc
      exact ⟨by simpa using h1, h2, h3, h4, h5, h6⟩
    · rintro ⟨h1, h2, h3, h4, h5, h6⟩
      simp [h1, h2, h3, h4, h5, h6]
  · intro hurl hinvalid
    refine ⟨⟨{ m with error := KQOAuthError.RequestValidationError }, w, some d, none⟩,
      ?_, rfl, rfl, rfl, rfl⟩
    simp [executeRequest, hurl, hinvalid]

/-- C11, at the fixture request without token secret. -/
theorem validateRequest_iff_witness :
    (sampleRequestNoTokenSecret.oauthRequestEndpoint.isValid = true
        ∧ validateRequest sampleRequestNoTokenSecret = false)
      ∧ ∃ r, executeRequest false sampleManager sampleWorld (some sampleRequestNoTokenSecret)
            = some r
          ∧ r.manager = { sampleManager with error := KQOAuthError.RequestValidationError }
          ∧ r.reply = none ∧ r.request = some sampleRequestNoTokenSecret
          ∧ r.world = sampleWorld :=
  ⟨⟨by decide, by decide⟩,
    (validateRequest_iff false sampleManager sampleWorld sampleRequestNoTokenSecret).2.2
      (by decide) (by decide)⟩

/-- C13. For every request state and every endpoint URL that is invalid or
empty, `initRequest` returns at once: every field of the request (and the
world) is as before, so an empty request stays empty. -/
theorem initRequest_invalid (w : World) (d : KQOAuthRequestPrivate) (url : QUrl)
    (h : url.isValid = false ∨ url.isEmpty = true) : initRequest w d url = (w, d) := by
  have hv : url.isValid = false := by
    rcases h with h | h
    · exact h
    · simp [QUrl.isValid, h]
  simp [initRequest, hv]

/-- C13, at the empty URL and at a URL that failed to parse. -/
theorem initRequest_invalid_witness :
    ((emptyUrl.isValid = false ∨ emptyUrl.isEmpty = true)
        ∧ initRequest sampleWorld sampleRequestUsed emptyUrl = (sampleWorld, sampleRequestUsed))
      ∧ (({ sampleRequest.oauthRequestEndpoint with valid := false } : QUrl).isValid = false
        ∧ initRequest sampleWorld sampleRequestUsed
            { sampleRequest.oauthRequestEndpoint with valid := false }
          = (sampleWorld, sampleRequestUsed)) :=
  ⟨⟨Or.inr (by decide), initRequest_invalid sampleWorld sampleRequestUsed emptyUrl
      (Or.inr (by decide))⟩,
    ⟨by decide, initRequest_invalid sampleWorld sampleRequestUsed _ (Or.inl (by decide))⟩⟩

/-- What `initRequest` leaves behind for a valid endpoint: every field is
reset or freshly set, except the raw body, which is the one from before. -/
theorem initRequest_valid (w : World) (d : KQOAuthRequestPrivate) (url : QUrl)
    (h : url.isValid = true) :
    (initRequest w d url).2
      = { oauthRequestEndpoint := url
          oauthHttpMethod := RequestHttpMethod.POST
          oauthHttpMethodString := lit "POST"
          oauthConsumerKey := []
          oauthConsumerSecretKey := []
          oauthToken := []
          oauthTokenSecret := []
          oauthVerifier := []
          oauthTimestamp_ := number (w.clock (w.clockReads + 1))
          oauthNonce_ :=
            numberInt (wrapInt32 ((w.rand (w.randCalls + 1) : Int) + wrapInt32 (w.offset + 1)))
          requestParameters := []
          additionalParameters := []
          contentType := lit "application/x-www-form-urlencoded"
          postRawData := d.postRawData
          timeout := 0 } := by
  simp [initRequest, h, clearRequest, resetRequest, setHttpMethod, oauthTimestamp, oauthNonce]

/-- C14. Evaluation of `initRequest` with the valid fixture endpoint on a
request that was used before (raw body `x`).  Endpoint, credentials, verifier,
parameter lists, timeout, nonce, timestamp, method and content type come out as
the claim says; the raw body is still `x`, it is not reset. -/
theorem initRequest_keeps_raw_body :
    sampleRequest.oauthRequestEndpoint.isValid = true
      ∧ sampleRequestUsed.postRawData = lit "x"
      ∧ (initRequest sampleWorld sampleRequestUsed sampleRequest.oauthRequestEndpoint).2
        = { oauthRequestEndpoint := sampleRequest.oauthRequestEndpoint
            oauthHttpMethod := RequestHttpMethod.POST
            oauthHttpMethodString := lit "POST"
            oauthConsumerKey := []
            oauthConsumerSecretKey := []
            oauthToken := []
            oauthTokenSecret := []
            oauthVerifier := []
            oauthTimestamp_ := lit "1000000000"
            oauthNonce_ := lit "8"
            requestParameters := []
            additionalParameters := []
            contentType := lit "application/x-www-form-urlencoded"
            postRawData := lit "x"
            timeout := 0 }
      ∧ (initRequest sampleWorld sampleRequestUsed sampleRequest.oauthRequestEndpoint).2.postRawData
        ≠ [] := by
  refine ⟨?_, ?_, ?_, ?_⟩ <;> decide

/-! ## Claims on signing without token secret and on nonces -/

/-- C12. Evaluation on the fixture request without token secret.  In a build
with `QT_NO_DEBUG` the assertion in `requestParameters` is compiled out and the
call goes on to sign: it returns seven entries, the last one named
`oauth_signature`, and appends that entry to the protocol parameters.  In a
build with assertions the call ends the process.  `executeRequest` checks
`isValid()` first: it records `RequestValidationError`, returns no reply and
leaves the protocol parameters empty. -/
theorem requestParameters_signs_invalid_request :
    validateRequest sampleRequestNoTokenSecret = false
      ∧ (requestParameters true sampleWorld sampleRequestNoTokenSecret).map (fun r => r.1)
        = some [lit "oauth_signature_method=\"HMAC-SHA1\"", lit "oauth_consumer_key=\"ck\"",
            lit "oauth_version=\"1.0\"", lit "oauth_timestamp=\"1000000000\"",
            lit "oauth_nonce=\"7\"", lit "oauth_token=\"tok\"",
            lit "oauth_signature=\"lBMy165bk3lWdH4KKoaFmy1gQR8%3D\""]
      ∧ (requestParameters true sampleWorld sampleRequestNoTokenSecret).map
          (fun r => r.2.2.requestParameters.getLast?)
        = some (some (OAUTH_KEY_SIGNATURE, lit "lBMy165bk3lWdH4KKoaFmy1gQR8%3D"))
      ∧ (requestParameters false sampleWorld sampleRequestNoTokenSecret).isNone = true
      ∧ (executeRequest true sampleManager sampleWorld (some sampleRequestNoTokenSecret)).map
          (fun r => (r.manager.error, r.reply, r.request))
        = some (KQOAuthError.RequestValidationError, none, some sampleRequestNoTokenSecret) := by
  refine ⟨?_, ?_, ?_, ?_, ?_⟩ <;> decide

/-- The sum `qrand() + offset` is an `int`: with `qrand()` at 2147483647 and
the counter at 1 the sum wraps around and the nonce is `-2147483648`. -/
theorem oauthNonce_wraps : (oauthNonce overflowWorld).1 = lit "-2147483648" := by
  decide

/-- C15. Evaluation of two consecutive calls of `oauthNonce` when `qrand()`
returns `5` and then `4`, the counter starting at 0: the first call returns the
rendering of `5 + 0`, the second that of `4 + 1`, so both return `5` and the
two nonces of the process are not distinct. -/
theorem oauthNonce_collision :
    (oauthNonce collidingWorld).1 = lit "5"
      ∧ (oauthNonce (oauthNonce collidingWorld).2).1 = lit "5"
      ∧ oauthNonceCalls 2 collidingWorld = [lit "5", lit "5"]
      ∧ ¬ (oauthNonceCalls 2 collidingWorld).Nodup := by
  have h : oauthNonceCalls 2 collidingWorld = [lit "5", lit "5"] := by decide
  refine ⟨by decide, by decide, h, ?_⟩
  rw [h]
  simp

/-! ## Claims on the header, the body and the query -/

theorem lit_eq_quote : lit "=\"" = [61, 34] := rfl
theorem lit_quote : lit "\"" = [34] := rfl

theorem toPercentEncoding_ascii (s : QString) : ∀ x ∈ toPercentEncoding s, x < 128 := by
  intro x hx
  rcases toPercentEncoding_mem s x hx with h | h
  · exact isUnreserved_lt x h
  · omega

theorem headerEntry_plain (n v : QString) (hn : n ≠ OAUTH_KEY_SIGNATURE)
    (hascii : ∀ x ∈ n, x < 128) :
    headerEntry (n, v) = n ++ lit "=\"" ++ toPercentEncoding v ++ lit "\"" := by
  simp only [headerEntry, ne_eq, hn, not_false_eq_true, if_true, fromAscii]
  apply toUtf8_ascii
  intro x hx
  simp only [List.mem_append, lit_eq_quote, lit_quote, List.mem_cons, List.mem_singleton,
    List.not_mem_nil, or_false] at hx
  rcases hx with ((hx | hx | hx) | hx) | hx
  · exact hascii x hx
  · omega
  · omega
  · exact toPercentEncoding_ascii v x hx
  · omega

theorem headerEntry_signature (v : QString) (hascii : ∀ x ∈ v, x < 128) :
    headerEntry (OAUTH_KEY_SIGNATURE, v) = OAUTH_KEY_SIGNATURE ++ lit "=\"" ++ v ++ lit "\"" := by
  simp only [headerEntry, ne_eq, not_true_eq_false, if_false]
  apply toUtf8_ascii
  intro x hx
  simp only [List.mem_append, lit_eq_quote, lit_quote, List.mem_cons, List.mem_singleton,
    List.not_mem_nil, or_false] at hx
  rcases hx with ((hx | hx | hx) | hx) | hx
  · have hsig : ∀ y ∈ OAUTH_KEY_SIGNATURE, y < 128 := by decide
    exact hsig x hx
  · omega
  · omega
  · exact hascii x hx
  · omega

theorem oauthSignature_ascii (base : QByteArray) (cs ts : QString) :
    ∀ x ∈ oauthSignature base cs ts, x < 128 := by
  intro x hx
  exact toPercentEncoding_ascii _ x hx

theorem prepareRequest_empty (w : World) (d : KQOAuthRequestPrivate)
    (h : d.requestParameters = []) :
    (prepareRequest w d).2.requestParameters
      = [(OAUTH_KEY_SIGNATURE_METHOD, lit "HMAC-SHA1"),
         (OAUTH_KEY_CONSUMER_KEY, d.oauthConsumerKey),
         (OAUTH_KEY_VERSION, lit "1.0"),
         (OAUTH_KEY_TIMESTAMP, number (w.clock w.clockReads)),
         (OAUTH_KEY_NONCE, numberInt (wrapInt32 ((w.rand w.randCalls : Int) + w.offset))),
         (OAUTH_KEY_TOKEN, d.oauthToken)] := by
  simp [prepareRequest, h, oauthTimestamp, oauthNonce]

theorem signRequest_parameters (w : World) (d : KQOAuthRequestPrivate) :
    (signRequest (prepareRequest w d).2).requestParameters
      = (prepareRequest w d).2.requestParameters
        ++ [(OAUTH_KEY_SIGNATURE,
            oauthSignature (requestBaseString (prepareRequest w d).2) d.oauthConsumerSecretKey
              d.oauthTokenSecret)] := by
  have h := prepareRequest_fields w d
  have h1 : (prepareRequest w d).2.oauthConsumerSecretKey = d.oauthConsumerSecretKey := by
    rw [h]
  have h2 : (prepareRequest w d).2.oauthTokenSecret = d.oauthTokenSecret := by
    rw [h]
  simp only [signRequest, h1, h2]

/-- C16. Authorization header format: for every valid request the list that
`requestParameters` returns holds, for every protocol parameter in order, the
entry `name="v"`, where `v` is `percentEncode(value)` for a parameter not named
`oauth_signature` and the stored value itself for `oauth_signature`; the last
entry is `oauth_signature="s"` with `s` exactly the value returned by
`oauthSignature`, not encoded again.  `executeRequest` builds the header as
`OAuth ` followed by these entries, in this order, joined by `, `. -/
theorem authorization_header_format (qtNoDebug : Bool) (m : KQOAuthManager) (w : World)
    (d : KQOAuthRequestPrivate) (hurl : d.oauthRequestEndpoint.isValid = true)
    (hvalid : validateRequest d = true) :
    let signature :=
      oauthSignature (requestBaseString (prepareRequest w d).2) d.oauthConsumerSecretKey
        d.oauthTokenSecret
    let final := (prepareRequest w d).2.requestParameters ++ [(OAUTH_KEY_SIGNATURE, signature)]
    let out := final.map fun p =>
      toUtf8 (p.1 ++ lit "=\""
        ++ (if p.1 = OAUTH_KEY_SIGNATURE then p.2 else fromAscii (toPercentEncoding p.2))
        ++ lit "\"")
    (∃ w1 d1, requestParameters qtNoDebug w d = some (out, w1, d1)
        ∧ d1.requestParameters = final)
      ∧ out.getLast? = some (lit "oauth_signature=\"" ++ signature ++ lit "\"")
      ∧ (d.requestParameters = [] →
          out = [lit "oauth_signature_method=\"" ++ toPercentEncoding (lit "HMAC-SHA1") ++ lit "\"",
                 lit "oauth_consumer_key=\"" ++ toPercentEncoding d.oauthConsumerKey ++ lit "\"",
                 lit "oauth_version=\"" ++ toPercentEncoding (lit "1.0") ++ lit "\"",
                 lit "oauth_timestamp=\""
                   ++ toPercentEncoding (number (w.clock w.clockReads)) ++ lit "\"",
                 lit "oauth_nonce=\""
                   ++ toPercentEncoding
                      (numberInt (wrapInt32 ((w.rand w.randCalls : Int) + w.offset)))
                   ++ lit "\"",
                 lit "oauth_token=\"" ++ toPercentEncoding d.oauthToken ++ lit "\"",
                 lit "oauth_signature=\"" ++ signature ++ lit "\""])
      ∧ ∃ r call, executeRequest qtNoDebug m w (some d) = some r ∧ r.reply = some call
          ∧ call.authorization = lit "OAuth " ++ (List.intersperse (lit ", ") out).flatten := by
  intro signature final out
  have hfinal : (signRequest (prepareRequest w d).2).requestParameters = final :=
    signRequest_parameters w d
  have hentry : ∀ p : Param, headerEntry p
      = toUtf8 (p.1 ++ lit "=\""
        ++ (if p.1 = OAUTH_KEY_SIGNATURE then p.2 else fromAscii (toPercentEncoding p.2))
        ++ lit "\"") := by
    intro p
    simp only [headerEntry, ne_eq, ite_not]
  have hout : final.map headerEntry = out := List.map_congr_left (fun p _ => hentry p)
  have hsigentry : headerEntry (OAUTH_KEY_SIGNATURE, signature)
      = lit "oauth_signature=\"" ++ signature ++ lit "\"" := by
    rw [headerEntry_signature _ (oauthSignature_ascii _ _ _)]
    rfl
  refine ⟨⟨(prepareRequest w d).1, signRequest (prepareRequest w d).2, ?_, hfinal⟩, ?_, ?_, ?_⟩
  · rw [requestParameters_valid qtNoDebug w d hvalid, hfinal, hout]
  · rw [← hout, List.map_append, List.map_cons, List.map_nil, List.getLast?_concat, hsigentry]
  · intro hempty
    rw [← hout]
    simp only [final, prepareRequest_empty w d hempty, List.cons_append, List.nil_append,
      List.map_cons, List.map_nil, hsigentry]
    rw [headerEntry_plain _ _ (by decide) (by decide),
      headerEntry_plain _ _ (by decide) (by decide),
      headerEntry_plain _ _ (by decide) (by decide),
      headerEntry_plain _ _ (by decide) (by decide),
      headerEntry_plain _ _ (by decide) (by decide),
      headerEntry_plain _ _ (by decide) (by decide)]
    rfl
  · refine ⟨_, _, executeRequest_valid qtNoDebug m w d hurl hvalid, rfl, ?_⟩
    simp only [hfinal, hout]

/-- C16, at the fixture request. -/
theorem authorization_header_format_witness :
    (sampleRequest.oauthRequestEndpoint.isValid = true ∧ validateRequest sampleRequest = true)
      ∧ ∃ r call, executeRequest false sampleManager sampleWorld (some sampleRequest) = some r
          ∧ r.reply = some call
          ∧ call.authorization
            = lit "OAuth " ++ (List.intersperse (lit ", ")
                (((prepareRequest sampleWorld sampleRequest).2.requestParameters
                    ++ [(OAUTH_KEY_SIGNATURE,
                        oauthSignature
                          (requestBaseString (prepareRequest sampleWorld sampleRequest).2)
                          sampleRequest.oauthConsumerSecretKey
                          sampleRequest.oauthTokenSecret)]).map fun p =>
                  toUtf8 (p.1 ++ lit "=\""
                    ++ (if p.1 = OAUTH_KEY_SIGNATURE then p.2
                        else fromAscii (toPercentEncoding p.2))
                    ++ lit "\""))).flatten :=
  ⟨⟨by decide, by decide⟩,
    (authorization_header_format false sampleManager sampleWorld sampleRequest (by decide)
      (by decide)).2.2.2⟩

theorem render_head (k v : QString) :
    ∃ x, (toPercentEncoding k ++ lit "=" ++ toPercentEncoding v).head? = some x ∧ x ≠ 38 := by
  cases hk : toPercentEncoding k with
  | nil => exact ⟨61, by simp [lit_eq], by decide⟩
  | cons x xs =>
    refine ⟨x, by simp, ?_⟩
    intro e
    have : x ∈ toPercentEncoding k := by rw [hk]; exact List.mem_cons_self _ _
    rw [e] at this
    exact toPercentEncoding_no_amp k this

theorem render_last (k v : QString) :
    ∃ x, (toPercentEncoding k ++ lit "=" ++ toPercentEncoding v).getLast? = some x ∧ x ≠ 38 := by
  cases hv : (toPercentEncoding v).getLast? with
  | none =>
    have : toPercentEncoding v = [] := List.getLast?_eq_none_iff.mp hv
    exact ⟨61, by simp [this, lit_eq], by decide⟩
  | some x =>
    refine ⟨x, by simp [List.getLast?_append, hv], ?_⟩
    intro e
    have : x ∈ toPercentEncoding v := List.mem_of_getLast?_eq_some hv
    rw [e] at this
    exact toPercentEncoding_no_amp v this

theorem joined_tail_last (ps : List Param) :
    ((ps.map fun q =>
        lit "&" ++ (toPercentEncoding q.1 ++ lit "=" ++ toPercentEncoding q.2)).flatten).getLast?
      ≠ some 38 := by
  induction ps with
  | nil => simp
  | cons q qs ih =>
    obtain ⟨x, hx, hne⟩ := render_last q.1 q.2
    simp only [List.map_cons, List.flatten_cons, List.getLast?_append, hx]
    cases hrest : ((qs.map fun q =>
        lit "&" ++ (toPercentEncoding q.1 ++ lit "=" ++ toPercentEncoding q.2)).flatten).getLast?
      with
    | none => simpa [Option.or] using hne
    | some y =>
      rw [hrest] at ih
      simpa [Option.or] using ih

theorem joinedParameters_no_edge_amp (ps : List Param) :
    (joinedParameters ps).head? ≠ some 38 ∧ (joinedParameters ps).getLast? ≠ some 38 := by
  cases ps with
  | nil => simp [joinedParameters]
  | cons p ps =>
    rw [joinedParameters_cons]
    obtain ⟨x, hx, hne⟩ := render_head p.1 p.2
    obtain ⟨y, hy, hney⟩ := render_last p.1 p.2
    constructor
    · rw [List.head?_append, hx]
      simpa [Option.or] using hne
    · rw [List.getLast?_append, hy]
      have ht := joined_tail_last ps
      cases hrest : ((ps.map fun q =>
          lit "&" ++ (toPercentEncoding q.1 ++ lit "=" ++ toPercentEncoding q.2)).flatten).getLast?
        with
      | none => simpa [Option.or] using hney
      | some z =>
        rw [hrest] at ht
        simpa [Option.or] using ht

/-- C17. GET vs POST: for a valid request with a valid endpoint, `executeRequest`
with method GET issues a `get` whose URL is the endpoint with its query set to
the additional parameters (all of them, with their multiplicities) and no body,
while with method POST and the form content type it issues a `post` whose URL is
the endpoint itself and whose body is `requestBody()`.  With the single
additional parameter `q=1` the GET URL has the query `q=1`, it ends in `?q=1`
when the endpoint has no fragment, and the POST body is exactly `q=1`. -/
theorem get_post_divergence (qtNoDebug : Bool) (m : KQOAuthManager) (w : World)
    (d : KQOAuthRequestPrivate) (hurl : d.oauthRequestEndpoint.isValid = true)
    (hvalid : validateRequest d = true) :
    (∃ r call items,
        executeRequest qtNoDebug m w (some (setHttpMethod d RequestHttpMethod.GET)) = some r
          ∧ r.reply = some call ∧ call.verb = RequestHttpMethod.GET
          ∧ call.url = d.oauthRequestEndpoint.setQueryItems items
          ∧ items.Perm d.additionalParameters ∧ call.body = none)
      ∧ (∃ r call,
          executeRequest qtNoDebug m w
              (some { setHttpMethod d RequestHttpMethod.POST with
                        contentType := lit "application/x-www-form-urlencoded" }) = some r
            ∧ r.reply = some call ∧ call.verb = RequestHttpMethod.POST
            ∧ call.url = d.oauthRequestEndpoint ∧ call.body = some (requestBody d))
      ∧ (d.additionalParameters = [(lit "q", lit "1")] →
          (∃ r call,
              executeRequest qtNoDebug m w (some (setHttpMethod d RequestHttpMethod.GET)) = some r
                ∧ r.reply = some call
                ∧ call.url = { d.oauthRequestEndpoint with hasQuery := true, query := lit "q=1" }
                ∧ (d.oauthRequestEndpoint.hasFragment = false →
                    call.url.toString false = d.oauthRequestEndpoint.toString true ++ lit "?q=1")
                ∧ call.body = none)
            ∧ requestBody d = lit "q=1") := by
  have hget := executeRequest_valid qtNoDebug m w (setHttpMethod d RequestHttpMethod.GET)
    hurl hvalid
  have hpost := executeRequest_valid qtNoDebug m w
    { setHttpMethod d RequestHttpMethod.POST with
        contentType := lit "application/x-www-form-urlencoded" } hurl hvalid
  refine ⟨⟨_, _, createQueryParams (additionalParameters d), hget, rfl, rfl, rfl, ?_, rfl⟩,
    ⟨_, _, hpost, rfl, rfl, rfl, ?_⟩, ?_⟩
  · rw [createQueryParams_eq]
    exact additionalParameters_perm d
  · simp only [setHttpMethod, if_true]
    rfl
  · intro hq
    have hitems : createQueryParams (additionalParameters (setHttpMethod d RequestHttpMethod.GET))
        = [(lit "q", lit "1")] := by
      rw [createQueryParams_eq]
      simp only [additionalParameters, setHttpMethod, hq]
      rfl
    have hquery : d.oauthRequestEndpoint.setQueryItems [(lit "q", lit "1")]
        = { d.oauthRequestEndpoint with hasQuery := true, query := lit "q=1" } := by
      simp only [QUrl.setQueryItems]
      rfl
    refine ⟨⟨_, _, hget, rfl, ?_, ?_, rfl⟩, ?_⟩
    · simp only [setHttpMethod] at hitems ⊢
      rw [hitems, hquery]
    · intro hfrag
      simp only [setHttpMethod] at hitems ⊢
      rw [hitems, hquery]
      have hlit : lit "?" ++ lit "q=1" = lit "?q=1" := rfl
      simp [QUrl.toString, hfrag, hlit]
    · rw [requestBody_eq, hq]
      rfl

/-- C17, at the fixture request with the additional parameter `q=1`. -/
theorem get_post_divergence_witness :
    ((({ sampleRequest with additionalParameters := [(lit "q", lit "1")] } :
          KQOAuthRequestPrivate).oauthRequestEndpoint.isValid = true
        ∧ validateRequest { sampleRequest with additionalParameters := [(lit "q", lit "1")] }
          = true)
      ∧ ({ sampleRequest with additionalParameters := [(lit "q", lit "1")] } :
          KQOAuthRequestPrivate).additionalParameters = [(lit "q", lit "1")])
      ∧ requestBody { sampleRequest with additionalParameters := [(lit "q", lit "1")] }
        = lit "q=1" :=
  ⟨⟨⟨by decide, by decide⟩, rfl⟩,
    ((get_post_divergence false sampleManager sampleWorld
      { sampleRequest with additionalParameters := [(lit "q", lit "1")] } (by decide)
      (by decide)).2.2 rfl).2⟩

/-- C18. For every request `requestBody()` is the additional parameters in
their stored order, each rendered as `percentEncode(key) = percentEncode(value)`,
joined by `&`: empty for no parameters, never starting or ending with `&`
(code 38).  For a valid POST request `executeRequest` sends `requestBody()` when
the content type equals `application/x-www-form-urlencoded` and the raw body
otherwise, whatever the additional parameters are. -/
theorem requestBody_serialization (qtNoDebug : Bool) (m : KQOAuthManager) (w : World)
    (d : KQOAuthRequestPrivate) :
    requestBody d = joinedParameters d.additionalParameters
      ∧ (d.additionalParameters = [] → requestBody d = [])
      ∧ (requestBody d).head? ≠ some 38
      ∧ (requestBody d).getLast? ≠ some 38
      ∧ (d.oauthRequestEndpoint.isValid = true → validateRequest d = true →
          d.oauthHttpMethod = RequestHttpMethod.POST →
          ∃ r call, executeRequest qtNoDebug m w (some d) = some r ∧ r.reply = some call
            ∧ call.verb = RequestHttpMethod.POST
            ∧ (d.contentType = lit "application/x-www-form-urlencoded" →
                call.body = some (requestBody d))
            ∧ (d.contentType ≠ lit "application/x-www-form-urlencoded" →
                call.body = some d.postRawData)) := by
  have hb := requestBody_eq d
  refine ⟨hb, ?_, ?_, ?_, ?_⟩
  · intro h
    rw [hb, h]
    rfl
  · rw [hb]
    exact (joinedParameters_no_edge_amp _).1
  · rw [hb]
    exact (joinedParameters_no_edge_amp _).2
  · intro hurl hvalid hpost
    refine ⟨_, _, executeRequest_valid qtNoDebug m w d hurl hvalid, rfl, ?_, ?_, ?_⟩
    · exact hpost
    · intro hct
      simp only [hpost, hct, if_true]
    · intro hct
      simp only [hpost, if_neg hct]

/-- C18, at the fixture request (POST, form content type). -/
theorem requestBody_serialization_witness :
    (sampleRequest.oauthRequestEndpoint.isValid = true ∧ validateRequest sampleRequest = true
        ∧ sampleRequest.oauthHttpMethod = RequestHttpMethod.POST)
      ∧ ∃ r call, executeRequest false sampleManager sampleWorld (some sampleRequest) = some r
          ∧ r.reply = some call ∧ call.verb = RequestHttpMethod.POST
          ∧ (sampleRequest.contentType = lit "application/x-www-form-urlencoded" →
              call.body = some (requestBody sampleRequest))
          ∧ (sampleRequest.contentType ≠ lit "application/x-www-form-urlencoded" →
              call.body = some sampleRequest.postRawData) :=
  ⟨⟨by decide, by decide, rfl⟩,
    (requestBody_serialization false sampleManager sampleWorld sampleRequest).2.2.2.2
      (by decide) (by decide) rfl⟩

theorem zip_keys_values (m : KQOAuthParameters) :
    List.zip (multiMapKeys m) (multiMapValues m) = m := by
  induction m with
  | nil => rfl
  | cons p ps ih =>
    simp only [multiMapKeys, multiMapValues, List.map_cons, List.zip_cons_cons] at ih ⊢
    rw [ih]

theorem pair_in_base_string (d : KQOAuthRequestPrivate) (p : Param)
    (h : p ∈ d.requestParameters ++ d.additionalParameters) :
    percentEncodeBytes (toPercentEncoding p.1 ++ lit "=" ++ toPercentEncoding p.2)
      <:+: requestBaseString d := by
  have hmem : p ∈ sortRequestParameters (d.requestParameters ++ d.additionalParameters) :=
    (sortRequestParameters_perm _).mem_iff.mpr h
  have h1 := percentEncodeBytes_infix _ _ (pair_infix_joinedParameters _ p hmem)
  rw [← encodeParameters_eq_bytes] at h1
  simp only [requestBaseString, List.nil_append]
  exact h1.trans (List.suffix_append _ _).isInfix

/-- C19. Additional parameters keep duplicate names: for every multi-map `m`,
`keys()` and `values()` are aligned position by position; after
`setAdditionalParameters(m)` the stored list is the list from before followed
by the items of `m`, each key with its own value, so on a fresh request it is
exactly the items of `m`; `additionalParameters()` then returns a multi-map with
the same pairs in the same multiplicities as `m`; every pair of `m` appears
(rendered and encoded) in the base string; a second call with `m2` adds the
items of `m2` and removes nothing. -/
theorem additional_parameters_keep_duplicates (d : KQOAuthRequestPrivate)
    (m m2 : KQOAuthParameters) :
    List.zip (multiMapKeys m) (multiMapValues m) = m
      ∧ (setAdditionalParameters d m).additionalParameters = d.additionalParameters ++ m
      ∧ (d.additionalParameters = [] →
          (setAdditionalParameters d m).additionalParameters = m
            ∧ (additionalParameters (setAdditionalParameters d m)).Perm m
            ∧ ∀ p : Param,
                (additionalParameters (setAdditionalParameters d m)).countP
                    (fun q => decide (q = p))
                  = m.countP (fun q => decide (q = p)))
      ∧ (∀ p ∈ m,
          percentEncodeBytes (toPercentEncoding p.1 ++ lit "=" ++ toPercentEncoding p.2)
            <:+: requestBaseString (setAdditionalParameters d m))
      ∧ (setAdditionalParameters (setAdditionalParameters d m) m2).additionalParameters
        = d.additionalParameters ++ m ++ m2 := by
  have hstored := setAdditionalParameters_stored d m
  refine ⟨zip_keys_values m, hstored, ?_, ?_, ?_⟩
  · intro hempty
    have hs : (setAdditionalParameters d m).additionalParameters = m := by
      rw [hstored, hempty, List.nil_append]
    have hp : (additionalParameters (setAdditionalParameters d m)).Perm m := by
      have := additionalParameters_perm (setAdditionalParameters d m)
      rwa [hs] at this
    exact ⟨hs, hp, fun p => hp.countP_eq _⟩
  · intro p hp
    apply pair_in_base_string
    rw [hstored]
    exact List.mem_append_right _ (List.mem_append_right _ hp)
  · rw [setAdditionalParameters_stored, hstored]

/-- C19, at the fixture request and the multi-map holding key `a` twice. -/
theorem additional_parameters_keep_duplicates_witness :
    sampleRequest.additionalParameters = []
      ∧ (setAdditionalParameters sampleRequest sampleDuplicateMap).additionalParameters
        = sampleDuplicateMap
      ∧ (additionalParameters (setAdditionalParameters sampleRequest sampleDuplicateMap)).Perm
          sampleDuplicateMap :=
  ⟨rfl,
    ((additional_parameters_keep_duplicates sampleRequest sampleDuplicateMap []).2.2.1 rfl).1,
    ((additional_parameters_keep_duplicates sampleRequest sampleDuplicateMap []).2.2.1 rfl).2.1⟩

/-- C20, as stated, fails: key `a` is inserted with value `2` and then `1` into
the map given to `setAdditionalParameters` of a GET request.  The stored list
and `requestBody()` have `a=1` before `a=2`; the query items that
`executeRequest` gives to the URL have `a=2` before `a=1`. -/
theorem query_items_not_in_stored_order :
    (setHttpMethod (setAdditionalParameters sampleRequest sampleDuplicateMap)
        RequestHttpMethod.GET).additionalParameters
        = [(lit "a", lit "1"), (lit "a", lit "2")]
      ∧ requestBody (setHttpMethod (setAdditionalParameters sampleRequest sampleDuplicateMap)
          RequestHttpMethod.GET) = lit "a=1&a=2"
      ∧ createQueryParams (additionalParameters
          (setHttpMethod (setAdditionalParameters sampleRequest sampleDuplicateMap)
            RequestHttpMethod.GET))
        = [(lit "a", lit "2"), (lit "a", lit "1")]
      ∧ (executeRequest false sampleManager sampleWorld
            (some (setHttpMethod (setAdditionalParameters sampleRequest sampleDuplicateMap)
              RequestHttpMethod.GET))).map (fun r => r.reply.map fun call => call.url.query)
        = some (some (lit "a=2&a=1"))
      ∧ createQueryParams (additionalParameters
          (setHttpMethod (setAdditionalParameters sampleRequest sampleDuplicateMap)
            RequestHttpMethod.GET))
        ≠ (setHttpMethod (setAdditionalParameters sampleRequest sampleDuplicateMap)
            RequestHttpMethod.GET).additionalParameters := by
  refine ⟨?_, ?_, ?_, ?_, ?_⟩ <;> decide

/-- C20, amended. For every valid GET request the query items that
`executeRequest` gives to the endpoint are the stored additional parameters
(same pairs, same multiplicities) sorted ascending by key; the items of one key
appear in the reverse of their stored order. -/
theorem query_items_order (qtNoDebug : Bool) (m : KQOAuthManager) (w : World)
    (d : KQOAuthRequestPrivate) (hurl : d.oauthRequestEndpoint.isValid = true)
    (hvalid : validateRequest d = true) (hget : d.oauthHttpMethod = RequestHttpMethod.GET) :
    (∃ r call, executeRequest qtNoDebug m w (some d) = some r ∧ r.reply = some call
        ∧ call.url
          = d.oauthRequestEndpoint.setQueryItems (createQueryParams (additionalParameters d)))
      ∧ (createQueryParams (additionalParameters d)).Perm d.additionalParameters
      ∧ (createQueryParams (additionalParameters d)).Pairwise
          (fun p q => qstringLess q.1 p.1 = false)
      ∧ ∀ key : QString,
          (createQueryParams (additionalParameters d)).filter (fun p => decide (p.1 = key))
            = (d.additionalParameters.filter (fun p => decide (p.1 = key))).reverse := by
  refine ⟨⟨_, _, executeRequest_valid qtNoDebug m w d hurl hvalid, rfl, ?_⟩, ?_, ?_, ?_⟩
  · simp only [hget]
  · rw [createQueryParams_eq]
    exact additionalParameters_perm d
  · rw [createQueryParams_eq]
    exact additionalParameters_sorted d
  · intro key
    rw [createQueryParams_eq]
    exact additionalParameters_filter d key

/-- C20 amended, at the GET request holding key `a` with values `1` and `2`. -/
theorem query_items_order_witness :
    ((setHttpMethod (setAdditionalParameters sampleRequest sampleDuplicateMap)
          RequestHttpMethod.GET).oauthRequestEndpoint.isValid = true
        ∧ validateRequest (setHttpMethod (setAdditionalParameters sampleRequest sampleDuplicateMap)
          RequestHttpMethod.GET) = true
        ∧ (setHttpMethod (setAdditionalParameters sampleRequest sampleDuplicateMap)
          RequestHttpMethod.GET).oauthHttpMethod = RequestHttpMethod.GET)
      ∧ (createQueryParams (additionalParameters
          (setHttpMethod (setAdditionalParameters sampleRequest sampleDuplicateMap)
            RequestHttpMethod.GET))).Perm
          (setHttpMethod (setAdditionalParameters sampleRequest sampleDuplicateMap)
            RequestHttpMethod.GET).additionalParameters :=
  ⟨⟨by decide, by decide, rfl⟩,
    (query_items_order false sampleManager sampleWorld
      (setHttpMethod (setAdditionalParameters sampleRequest sampleDuplicateMap)
        RequestHttpMethod.GET) (by decide) (by decide) rfl).2.1⟩

/-! ## Claims on the network manager, the shape of the base string and the verifier -/

/-- C21. Life cycle of the network manager of a `KQOAuthManager`, for every
heap.  The constructor installs the default manager it creates through
`setNetworkManager`, which sets `managerUserSet`: right after construction the
flag is true, and the destructor then deletes nothing, so the default manager
stays alive; nor is it deleted when a caller's manager replaces it.  After
`setNetworkManager(x)` with a non-null `x` the current manager is `x`, the flag
is true and the destructor does not delete `x`; `setNetworkManager(null)`
changes nothing. -/
theorem default_network_manager_not_released (h : NetworkManagerHeap) (m : KQOAuthManager)
    (x : Nat) :
    (constructManager h).2
        = { error := KQOAuthError.NoError, networkManager := some h.nextId,
            managerUserSet := true }
      ∧ (constructManager h).1 = { nextId := h.nextId + 1, live := h.nextId :: h.live }
      ∧ destructManager (constructManager h).1 (constructManager h).2 = constructManager h
      ∧ h.nextId ∈ (destructManager (constructManager h).1 (constructManager h).2).1.live
      ∧ (setNetworkManager (constructManager h).1 (constructManager h).2 (some x)).1
        = (constructManager h).1
      ∧ (setNetworkManager h m (some x)).2
        = { m with managerUserSet := true, networkManager := some x }
      ∧ destructManager (setNetworkManager h m (some x)).1 (setNetworkManager h m (some x)).2
        = setNetworkManager h m (some x)
      ∧ setNetworkManager h m none = (h, m) := by
  have hc : constructManager h
      = ({ nextId := h.nextId + 1, live := h.nextId :: h.live },
         { error := KQOAuthError.NoError, networkManager := some h.nextId,
           managerUserSet := true }) := by
    simp [constructManager, setNetworkManager, newNetworkManager]
  have hd : destructManager (constructManager h).1 (constructManager h).2 = constructManager h := by
    rw [hc]
    simp [destructManager]
  refine ⟨by rw [hc], by rw [hc], hd, ?_, ?_, ?_, ?_, ?_⟩
  · rw [hd, hc]
    simp
  · rw [hc]
    simp [setNetworkManager]
  · simp [setNetworkManager]
  · simp [setNetworkManager, destructManager]
  · simp [setNetworkManager]

theorem toHexHelper_upper (n : Nat) (h : n < 16) : isUpperHexDigit (toHexHelper n) = true := by
  interval_cases n <;> rfl

theorem percentEncodeByte_token (c : Nat) : isBaseStringToken (percentEncodeByte c) = true := by
  unfold percentEncodeByte
  split_ifs with hc
  · simp [isBaseStringToken, hc]
  · simp [isBaseStringToken, toHexHelper_upper _ (Nat.mod_lt _ (by decide : 0 < 16))]

theorem percentEncodeBytes_tokens (ba : QByteArray) :
    percentEncodeBytes ba = (ba.map percentEncodeByte).flatten
      ∧ ∀ t ∈ ba.map percentEncodeByte, isBaseStringToken t = true := by
  refine ⟨?_, ?_⟩
  · induction ba with
    | nil => rfl
    | cons c cs ih => rw [percentEncodeBytes_cons, ih, List.map_cons, List.flatten_cons]
  · intro t ht
    rw [List.mem_map] at ht
    obtain ⟨c, _, rfl⟩ := ht
    exact percentEncodeByte_token c

theorem split_at_amp (a a2 r r2 : List Nat) (ha : 38 ∉ a) (ha2 : 38 ∉ a2)
    (h : a ++ 38 :: r = a2 ++ 38 :: r2) : a = a2 ∧ r = r2 := by
  induction a generalizing a2 with
  | nil =>
    cases a2 with
    | nil => simpa using h
    | cons y ys =>
      simp only [List.nil_append, List.cons_append, List.cons.injEq] at h
      exact absurd (by rw [← h.1]; exact List.mem_cons_self _ _) ha2
  | cons x xs ih =>
    cases a2 with
    | nil =>
      simp only [List.nil_append, List.cons_append, List.cons.injEq] at h
      exact absurd (by rw [h.1]; exact List.mem_cons_self _ _) ha
    | cons y ys =>
      simp only [List.cons_append, List.cons.injEq] at h
      have := ih ys (fun hm => ha (List.mem_cons_of_mem _ hm))
        (fun hm => ha2 (List.mem_cons_of_mem _ hm)) h.2
      exact ⟨by rw [h.1, this.1], this.2⟩

theorem requestBaseString_parts (d : KQOAuthRequestPrivate) :
    requestBaseString d
      = toUtf8 d.oauthHttpMethodString
        ++ 38 :: (toPercentEncoding (d.oauthRequestEndpoint.toString true)
          ++ 38 :: encodeParameters
            (sortRequestParameters (d.requestParameters ++ d.additionalParameters))) := by
  simp [requestBaseString, lit_amp]

theorem encodeParameters_mem (ps : List Param) (x : Nat) (h : x ∈ encodeParameters ps) :
    isUnreserved x = true ∨ x = 37 := by
  rw [encodeParameters_eq_bytes] at h
  exact percentEncodeBytes_mem _ x h

theorem method_tokens (s : List Nat) (hs : ∀ x ∈ s, isUnreserved x = true) :
    s = (s.map fun c => [c]).flatten ∧ ∀ t ∈ s.map (fun c => [c]), isBaseStringToken t = true := by
  refine ⟨?_, ?_⟩
  · induction s with
    | nil => rfl
    | cons c cs ih =>
      have := ih (fun x hx => hs x (List.mem_cons_of_mem _ hx))
      simp only [List.map_cons, List.flatten_cons, List.singleton_append]
      rw [← this]
  · intro t ht
    rw [List.mem_map] at ht
    obtain ⟨c, hc, rfl⟩ := ht
    simp [isBaseStringToken, hs c hc]

/-- C22. For every request whose method string is `GET` or `POST` the base
string is the method, `&`, the encoded endpoint, `&`, the encoded parameter
block.  Every byte is ASCII and is an unreserved character, `%` or `&`; the
string is a sequence of units each of which is one unreserved character, one
raw `&`, or `%` followed by two upper-case hexadecimal digits; the raw `&`
(code 38) occurs exactly twice, so a split at two `&` into parts free of `&`
can only be the split into method, endpoint and block; there is no raw `=`
(code 61); and the conversion to `QString` and back to ASCII inside
`hmac_sha1` returns the same bytes. -/
theorem requestBaseString_shape (d : KQOAuthRequestPrivate)
    (hm : d.oauthHttpMethodString = lit "GET" ∨ d.oauthHttpMethodString = lit "POST") :
    requestBaseString d
        = d.oauthHttpMethodString ++ lit "&"
          ++ toPercentEncoding (d.oauthRequestEndpoint.toString true) ++ lit "&"
          ++ encodeParameters
              (sortRequestParameters (d.requestParameters ++ d.additionalParameters))
      ∧ (∀ x ∈ requestBaseString d, x < 128 ∧ (isUnreserved x = true ∨ x = 37 ∨ x = 38))
      ∧ (∃ tokens : List (List Nat),
          requestBaseString d = tokens.flatten ∧ ∀ t ∈ tokens, isBaseStringToken t = true)
      ∧ (requestBaseString d).count 38 = 2
      ∧ (∀ a b c : List Nat, 38 ∉ a → 38 ∉ b →
          requestBaseString d = a ++ lit "&" ++ b ++ lit "&" ++ c →
          a = d.oauthHttpMethodString
            ∧ b = toPercentEncoding (d.oauthRequestEndpoint.toString true)
            ∧ c = encodeParameters
                (sortRequestParameters (d.requestParameters ++ d.additionalParameters)))
      ∧ 61 ∉ requestBaseString d
      ∧ toAscii (fromAscii (requestBaseString d)) = requestBaseString d := by
  have hmeth : ∀ x ∈ d.oauthHttpMethodString, isUnreserved x = true := by
    rcases hm with h | h <;> rw [h] <;> decide
  have hutf : toUtf8 d.oauthHttpMethodString = d.oauthHttpMethodString :=
    toUtf8_ascii _ (fun x hx => isUnreserved_lt x (hmeth x hx))
  have hparts := requestBaseString_parts d
  rw [hutf] at hparts
  have hmem : ∀ x ∈ requestBaseString d, isUnreserved x = true ∨ x = 37 ∨ x = 38 := by
    intro x hx
    rw [hparts] at hx
    simp only [List.mem_append, List.mem_cons] at hx
    rcases hx with hx | hx | hx | hx | hx
    · exact Or.inl (hmeth x hx)
    · exact Or.inr (Or.inr hx)
    · rcases toPercentEncoding_mem _ x hx with h | h
      · exact Or.inl h
      · exact Or.inr (Or.inl h)
    · exact Or.inr (Or.inr hx)
    · rcases encodeParameters_mem _ x hx with h | h
      · exact Or.inl h
      · exact Or.inr (Or.inl h)
  have hascii : ∀ x ∈ requestBaseString d, x < 128 := by
    intro x hx
    rcases hmem x hx with h | h | h
    · exact isUnreserved_lt x h
    · omega
    · omega
  have hnoamp_m : 38 ∉ d.oauthHttpMethodString := fun h => absurd (hmeth 38 h) (by decide)
  have hnoamp_e : 38 ∉ toPercentEncoding (d.oauthRequestEndpoint.toString true) :=
    toPercentEncoding_no_amp _
  have hnoamp_p : 38 ∉ encodeParameters
      (sortRequestParameters (d.requestParameters ++ d.additionalParameters)) := by
    intro h
    rcases encodeParameters_mem _ 38 h with h1 | h1
    · exact absurd h1 (by decide)
    · exact absurd h1 (by decide)
  refine ⟨?_, fun x hx => ⟨hascii x hx, hmem x hx⟩, ?_, ?_, ?_, ?_, ?_⟩
  · rw [hparts]
    simp [lit_amp]
  · obtain ⟨hm1, hm2⟩ := method_tokens d.oauthHttpMethodString hmeth
    obtain ⟨he1, he2⟩ := percentEncodeBytes_tokens (toUtf8 (d.oauthRequestEndpoint.toString true))
    obtain ⟨hp1, hp2⟩ := percentEncodeBytes_tokens (joinedParameters
      (sortRequestParameters (d.requestParameters ++ d.additionalParameters)))
    refine ⟨d.oauthHttpMethodString.map (fun c => [c]) ++ [[38]]
        ++ (toUtf8 (d.oauthRequestEndpoint.toString true)).map percentEncodeByte ++ [[38]]
        ++ (joinedParameters (sortRequestParameters
            (d.requestParameters ++ d.additionalParameters))).map percentEncodeByte, ?_, ?_⟩
    · rw [hparts, encodeParameters_eq_bytes, hp1]
      conv_lhs => rw [hm1]
      unfold toPercentEncoding
      rw [he1]
      simp
    · intro t ht
      simp only [List.mem_append, List.mem_singleton] at ht
      rcases ht with (((ht | ht) | ht) | ht) | ht
      · exact hm2 t ht
      · rw [ht]
        rfl
      · exact he2 t ht
      · rw [ht]
        rfl
      · exact hp2 t ht
  · rw [hparts]
    simp only [List.count_append, List.count_cons_self]
    rw [List.count_eq_zero.mpr hnoamp_m, List.count_eq_zero.mpr hnoamp_e,
      List.count_eq_zero.mpr hnoamp_p]
  · intro a b c ha hb hsplit
    rw [hparts] at hsplit
    simp only [lit_amp, List.append_assoc, List.singleton_append] at hsplit
    obtain ⟨h1, hrest⟩ := split_at_amp _ _ _ _ hnoamp_m ha hsplit
    obtain ⟨h2, h3⟩ := split_at_amp _ _ _ _ hnoamp_e hb hrest
    exact ⟨h1.symm, h2.symm, h3.symm⟩
  · intro h
    rcases hmem 61 h with h1 | h1 | h1
    · exact absurd h1 (by decide)
    · exact absurd h1 (by decide)
    · exact absurd h1 (by decide)
  · exact toAscii_fromAscii _ (fun x hx => by
      have := hascii x hx
      omega)

/-- C22, at the fixture request (method string `POST`). -/
theorem requestBaseString_shape_witness :
    (sampleRequest.oauthHttpMethodString = lit "GET"
        ∨ sampleRequest.oauthHttpMethodString = lit "POST")
      ∧ (requestBaseString sampleRequest).count 38 = 2
      ∧ 61 ∉ requestBaseString sampleRequest :=
  ⟨Or.inr rfl, (requestBaseString_shape sampleRequest (Or.inr rfl)).2.2.2.1,
    (requestBaseString_shape sampleRequest (Or.inr rfl)).2.2.2.2.2.1⟩

theorem prepareRequest_setVerifier (w : World) (d : KQOAuthRequestPrivate) (v : QString) :
    prepareRequest w (setVerifier d v)
      = ((prepareRequest w d).1, setVerifier (prepareRequest w d).2 v) := by
  unfold prepareRequest setVerifier
  split_ifs <;> rfl

/-- C23. The verifier never reaches the signed output: for every request state
and every verifier, setting the verifier changes neither `requestBaseString`,
nor `requestBody`, nor `isValid`, and `requestParameters` returns the same
header entries (the signature among them) and the same world, its final state
differing in the verifier field only.  The entries that `requestParameters`
adds to the protocol parameters are never named `oauth_verifier`, and the call
leaves the verifier field as it was. -/
theorem verifier_not_signed (qtNoDebug : Bool) (w : World) (d : KQOAuthRequestPrivate)
    (verifier : QString) :
    requestBaseString (setVerifier d verifier) = requestBaseString d
      ∧ requestBody (setVerifier d verifier) = requestBody d
      ∧ validateRequest (setVerifier d verifier) = validateRequest d
      ∧ requestParameters qtNoDebug w (setVerifier d verifier)
        = (requestParameters qtNoDebug w d).map
            (fun r => (r.1, r.2.1, setVerifier r.2.2 verifier))
      ∧ (∀ (out : List QByteArray) (w1 : World) (d1 : KQOAuthRequestPrivate),
          requestParameters qtNoDebug w d = some (out, w1, d1) →
          d1.oauthVerifier = d.oauthVerifier
            ∧ ∃ added : List Param,
                d1.requestParameters = d.requestParameters ++ added
                  ∧ ∀ p ∈ added, p.1 ≠ OAUTH_KEY_VERIFIER) := by
  refine ⟨rfl, rfl, rfl, ?_, ?_⟩
  · simp only [requestParameters, prepareRequest_setVerifier]
    have hv : validateRequest (setVerifier (prepareRequest w d).2 verifier)
        = validateRequest (prepareRequest w d).2 := rfl
    rw [hv]
    split_ifs
    · rfl
    · rfl
  · intro out w1 d1 hres
    simp only [requestParameters] at hres
    split_ifs at hres
    simp only [Option.some.injEq, Prod.mk.injEq] at hres
    obtain ⟨_, _, hd1⟩ := hres
    subst hd1
    have hfields := signed_fields w d
    refine ⟨by rw [hfields], ?_⟩
    rw [signRequest_parameters]
    cases hps : d.requestParameters with
    | nil =>
      refine ⟨_, by rw [List.nil_append], ?_⟩
      intro p hp
      rw [prepareRequest_empty w d hps] at hp
      simp only [List.cons_append, List.nil_append, List.mem_cons, List.mem_singleton,
        List.not_mem_nil, or_false] at hp
      rcases hp with h | h | h | h | h | h | h <;> subst h <;> dsimp only <;> decide
    | cons q qs =>
      have hprep : (prepareRequest w d).2.requestParameters = q :: qs := by
        simp [prepareRequest, hps]
      refine ⟨[(OAUTH_KEY_SIGNATURE, _)], by rw [hprep], ?_⟩
      intro p hp
      simp only [List.mem_singleton] at hp
      subst hp
      dsimp only
      decide

/-- C23, at the fixture request. -/
theorem verifier_not_signed_witness :
    requestParameters false sampleWorld sampleRequest
        = some ((signRequest (prepareRequest sampleWorld sampleRequest).2).requestParameters.map
              headerEntry,
            (prepareRequest sampleWorld sampleRequest).1,
            signRequest (prepareRequest sampleWorld sampleRequest).2)
      ∧ (signRequest (prepareRequest sampleWorld sampleRequest).2).oauthVerifier
        = sampleRequest.oauthVerifier :=
  ⟨requestParameters_valid false sampleWorld sampleRequest (by decide),
    ((verifier_not_signed false sampleWorld sampleRequest (lit "v")).2.2.2.2 _ _ _
      (requestParameters_valid false sampleWorld sampleRequest (by decide))).1⟩

end KQOAuth
